import Mathlib

/-!
Verification development for the external-dns provider adapters
(PowerDNS, Azure Private DNS, CoreDNS) and the ingress source.

Each Go function under `src/` that the properties refer to is translated
into an executable Lean definition; effectful code is modelled by
threading explicit state and by recording the mutating backend calls a
run would issue in a trace, so that "performs no mutating call" and
"issues call X before call Y" become statements about that trace.
Machine integers (Go `int64`/`int32`) are modelled as `Int` with explicit
bounds where the code checks them.  Helpers of the repository that are
not part of the given sources (the `plan`, `endpoint` and generic
`provider` packages) are modelled from the specification and marked as
such in their doc comments.
-/

/-! ## Shared string helpers -/

/-- Boolean suffix test on strings, the model of Go `strings.HasSuffix`. -/
def strEndsWith (s suf : String) : Bool := suf.data.isSuffixOf s.data

/-- Lexicographic order on character lists, the model of Go's `<` on
strings (byte order and codepoint order agree on the ASCII names the
providers handle). -/
def strLtB : List Char → List Char → Bool
  | [], [] => false
  | [], _ :: _ => true
  | _ :: _, [] => false
  | a :: as, b :: bs =>
    if a.toNat < b.toNat then true
    else if b.toNat < a.toNat then false
    else strLtB as bs

/-- String form of `strLtB`. -/
def strLt (a b : String) : Bool := strLtB a.data b.data

/-- Modelled from the spec: normalization of DNS names at the adapter
boundary (`provider.EnsureTrailingDot`, not under `src/`): the name is
given a trailing dot when it does not already end in one. -/
def ensureTrailingDot (s : String) : String :=
  if strEndsWith s "." then s else s ++ "."

/-! ## Endpoint and change model -/

/-- Modelled from the spec: the canonical Endpoint record of §3 (the
`endpoint` package is not under `src/`): DNS name, record type, optional
set identifier, target list and TTL (zero = unconfigured). -/
structure Endpoint where
  dnsName : String
  recordType : String
  setIdentifier : String := ""
  targets : List String := []
  recordTTL : Int := 0
deriving Repr, DecidableEq

/-- Modelled from the spec: the Changes value of §3 (`plan.Changes`, not
under `src/`): a create set, a delete set and a set of (Old, New) update
pairs. -/
structure Changes where
  create : List Endpoint := []
  update : List (Endpoint × Endpoint) := []
  delete : List Endpoint := []
deriving Repr

/-- Modelled from the spec: `Changes.UpdateOld` returns the old halves of
the update pairs. -/
def Changes.updateOld (c : Changes) : List Endpoint := c.update.map Prod.fst

/-- Modelled from the spec: `Changes.UpdateNew` returns the new halves of
the update pairs. -/
def Changes.updateNew (c : Changes) : List Endpoint := c.update.map Prod.snd

/-- Modelled from the spec: the §7 error taxonomy of the `provider`
package (not under `src/`): soft/transient errors
(`provider.NewSoftErrorf`) are distinguishable from permanent ones. -/
inductive ProviderError where
  | soft (msg : String)
  | permanent (msg : String)
deriving Repr, DecidableEq

/-- Tests whether a result failed with a soft error. -/
def isSoftFailure {α : Type} : Except ProviderError α → Bool
  | .error (.soft _) => true
  | _ => false

/-- Modelled from the spec: a domain filter (§4.2, the
`endpoint.DomainFilter` is not under `src/`) is abstracted as a
configured flag plus an arbitrary match predicate on names. -/
structure DomainFilterPred where
  configured : Bool
  matchName : String → Bool

/-! ## PowerDNS provider model (src/provider/pdns/pdns.go) -/

/-- One record inside a PowerDNS rrset (`pgo.Record`). -/
structure PdnsRecord where
  content : String
  disabled : Bool := false
deriving Repr, DecidableEq

/-- A PowerDNS rrset (`pgo.RrSet`).  The `ttl` is `none` when the Go code
leaves the field unset (DELETE rrsets never receive a TTL). -/
structure RrSet where
  name : String
  type_ : String
  ttl : Option Int := none
  records : List PdnsRecord := []
  changetype : String
deriving Repr, DecidableEq

/-- A PowerDNS zone (`pgo.Zone`) with its identifier, name and rrsets. -/
structure PdnsZone where
  id : String := ""
  name : String
  rrsets : List RrSet := []
deriving Repr, DecidableEq

/-- The `pdnsChangeType` enum: REPLACE creates/updates rrsets, DELETE
removes them. -/
inductive PdnsChangeType where
  | replace
  | delete
deriving Repr, DecidableEq

/-- String form of a changetype, as stored in `pgo.RrSet.Changetype`. -/
def PdnsChangeType.str : PdnsChangeType → String
  | .replace => "REPLACE"
  | .delete => "DELETE"

/-- The `defaultTTL` constant of the pdns package. -/
def pdnsDefaultTTL : Int := 300

/-- Go `math.MaxInt32`. -/
def maxInt32 : Int := 2147483647

/-- Zone matching as written in `ConvertEndpointsToZones`: the name
equals the zone name or ends with "." followed by the zone name. -/
def zoneMatch (dnsname zoneName : String) : Bool :=
  dnsname == zoneName || strEndsWith dnsname ("." ++ zoneName)

/-- The rrset built for one endpoint matched to a zone, the body of the
inner loop of `ConvertEndpointsToZones` (pdns.go:313-354): targets of
CNAME/ALIAS/MX/SRV records get a trailing dot, an apex CNAME becomes an
ALIAS, REPLACE rrsets get the endpoint TTL (defaulted to 300 when zero,
soft error when above int32), DELETE rrsets carry no TTL. -/
def mkRrSet (zoneName : String) (ct : PdnsChangeType) (ep : Endpoint) :
    Except ProviderError RrSet :=
  let dnsname := ensureTrailingDot ep.dnsName
  let records := ep.targets.map (fun t =>
    { content := if ep.recordType == "CNAME" || ep.recordType == "ALIAS"
          || ep.recordType == "MX" || ep.recordType == "SRV"
        then ensureTrailingDot t else t : PdnsRecord })
  let rtype := if dnsname == zoneName && ep.recordType == "CNAME"
    then "ALIAS" else ep.recordType
  match ct with
  | .delete =>
    .ok { name := dnsname, type_ := rtype, records := records,
          changetype := "DELETE" }
  | .replace =>
    if ep.recordTTL > maxInt32 then
      .error (.soft "value of record TTL overflows, limited to int32")
    else
      .ok { name := dnsname, type_ := rtype, records := records,
            ttl := some (if ep.recordTTL == 0 then pdnsDefaultTTL else ep.recordTTL),
            changetype := "REPLACE" }

/-- The inner endpoint loop of `ConvertEndpointsToZones` for one zone:
matching endpoints are popped and turned into rrsets, the rest remain,
in order; a TTL overflow aborts with the soft error. -/
def zoneApplyEndpoints (zoneName : String) (ct : PdnsChangeType) :
    List Endpoint → Except ProviderError (List RrSet × List Endpoint)
  | [] => .ok ([], [])
  | ep :: rest =>
    if zoneMatch (ensureTrailingDot ep.dnsName) zoneName then
      match mkRrSet zoneName ct ep with
      | .error e => .error e
      | .ok rr =>
        match zoneApplyEndpoints zoneName ct rest with
        | .error e => .error e
        | .ok (rrs, rem) => .ok (rr :: rrs, rem)
    else
      match zoneApplyEndpoints zoneName ct rest with
      | .error e => .error e
      | .ok (rrs, rem) => .ok (rrs, ep :: rem)

/-- The outer zone loop of `ConvertEndpointsToZones`: zones are processed
in list order, each consuming its matching endpoints; zones that gained
rrsets are collected. -/
def zonesApply (ct : PdnsChangeType) :
    List PdnsZone → List Endpoint → Except ProviderError (List PdnsZone × List Endpoint)
  | [], eps => .ok ([], eps)
  | z :: zs, eps =>
    match zoneApplyEndpoints z.name ct eps with
    | .error e => .error e
    | .ok (rrs, rem) =>
      match zonesApply ct zs rem with
      | .error e => .error e
      | .ok (zl, rem2) =>
        .ok ((if rrs.isEmpty then zl else { z with rrsets := rrs } :: zl), rem2)

/-- The residual-zone loop of `ConvertEndpointsToZones`: endpoints
matching a residual (filtered-out) zone are dropped as a no-op. -/
def removeResidual : List PdnsZone → List Endpoint → List Endpoint
  | [], eps => eps
  | z :: zs, eps =>
    removeResidual zs
      (eps.filter (fun ep => !(zoneMatch (ensureTrailingDot ep.dnsName) z.name)))

/-- `PDNSAPIClient.PartitionZones`: when the domain filter is configured
the zones are split into those matching it and the residual ones;
otherwise all zones pass the filter. -/
def partitionZones (df : DomainFilterPred) (zones : List PdnsZone) :
    List PdnsZone × List PdnsZone :=
  if df.configured then
    (zones.filter (fun z => df.matchName z.name),
     zones.filter (fun z => !(df.matchName z.name)))
  else (zones, [])

/-- The Go comparison used by `sort.SliceStable` over endpoints: same
name compares record types, otherwise names. -/
def epLess (a b : Endpoint) : Bool :=
  if a.dnsName == b.dnsName then strLt a.recordType b.recordType
  else strLt a.dnsName b.dnsName

/-- Stable-sort order corresponding to `epLess`. -/
def epLe (a b : Endpoint) : Prop := epLess b a = false

instance : DecidableRel epLe := fun _ _ => instDecidableEqBool _ _

/-- Descending order on zone name length, the comparison that
`ConvertEndpointsToZones` sorts the filtered zones with. -/
def zoneLenGe (a b : PdnsZone) : Prop := b.name.length ≤ a.name.length

instance : DecidableRel zoneLenGe := fun _ _ => Nat.decLe _ _

instance : IsTotal PdnsZone zoneLenGe := ⟨fun a b => Nat.le_total b.name.length a.name.length⟩

instance : IsTrans PdnsZone zoneLenGe := ⟨fun _ _ _ h1 h2 => Nat.le_trans h2 h1⟩

/-- `PDNSProvider.ConvertEndpointsToZones`: sorts the endpoints, lists
and partitions the zones, sorts the filtered zones by descending name
length, assigns endpoints to zones (longest first), drops endpoints of
residual zones, warns about (but keeps no) leftovers, and returns the
zone list.  The result of the client `ListZones` call is a parameter. -/
def convertEndpointsToZones (listZonesRes : Except ProviderError (List PdnsZone))
    (df : DomainFilterPred) (eps : List Endpoint) (ct : PdnsChangeType) :
    Except ProviderError (List PdnsZone) :=
  let endpoints := List.insertionSort epLe eps
  match listZonesRes with
  | .error e => .error e
  | .ok zones =>
    let part := partitionZones df zones
    let sortedZones := List.insertionSort zoneLenGe part.1
    match zonesApply ct sortedZones endpoints with
    | .error e => .error e
    | .ok (zoneList, _rem) => .ok zoneList

/-- A mutating PowerDNS API call: `PatchZone` with the zone payload. -/
inductive PdnsCall where
  | patchZone (zoneId : String) (zone : PdnsZone)
deriving Repr, DecidableEq

/-- The modelled PowerDNS client: the outcome of `ListZones`, the domain
filter, and the per-call outcome of `PatchZone`. -/
structure PdnsClientModel where
  listZonesRes : Except ProviderError (List PdnsZone)
  df : DomainFilterPred
  patchRes : String → PdnsZone → Option ProviderError

/-- The `PatchZone` loop of `mutateRecords`: each zone is patched in
order; a failing patch aborts after its call was issued. -/
def patchZonesLoop (patchRes : String → PdnsZone → Option ProviderError) :
    List PdnsZone → List PdnsCall × Option ProviderError
  | [] => ([], none)
  | z :: zs =>
    match patchRes z.id z with
    | some e => ([.patchZone z.id z], some e)
    | none =>
      let r := patchZonesLoop patchRes zs
      (.patchZone z.id z :: r.1, r.2)

/-- `PDNSProvider.mutateRecords`: convert the endpoints to zones and
patch each resulting zone, returning the issued calls and the error. -/
def mutateRecords (cl : PdnsClientModel) (eps : List Endpoint)
    (ct : PdnsChangeType) : List PdnsCall × Option ProviderError :=
  match convertEndpointsToZones cl.listZonesRes cl.df eps ct with
  | .error e => ([], some e)
  | .ok zl => patchZonesLoop cl.patchRes zl

/-- `PDNSProvider.ApplyChanges`: Create endpoints are applied first (as
REPLACE), then UpdateNew (as REPLACE), then Delete (as DELETE); empty
groups are skipped and an error aborts the remaining groups. -/
def pdnsApplyChanges (cl : PdnsClientModel) (changes : Changes) :
    List PdnsCall × Option ProviderError :=
  let s1 := if changes.create.isEmpty then ([], none)
    else mutateRecords cl changes.create .replace
  match s1.2 with
  | some e => (s1.1, some e)
  | none =>
    let un := changes.updateNew
    let s2 := if un.isEmpty then ([], none) else mutateRecords cl un .replace
    match s2.2 with
    | some e => (s1.1 ++ s2.1, some e)
    | none =>
      let s3 := if changes.delete.isEmpty then ([], none)
        else mutateRecords cl changes.delete .delete
      (s1.1 ++ s2.1 ++ s3.1, s3.2)

/-- The retry limit of the pdns package. -/
def pdnsRetryLimit : Nat := 3

/-- The base retry delay of the pdns package, in milliseconds. -/
def pdnsRetryAfterTime : Nat := 250

/-- Outcome of a `PDNSAPIClient.ListZones` run: how many calls were
made, which sleeps (in milliseconds) happened between them, and the
result. -/
structure ListZonesRun where
  calls : Nat
  sleeps : List Nat
  result : Except ProviderError (List PdnsZone)
deriving Repr

/-- The retry loop of `PDNSAPIClient.ListZones`: attempt `i` failing
sleeps `250 * 2^i` ms and retries; when the fuel (the retry limit) runs
out the last error is wrapped in a soft error. -/
def listZonesLoop (att : Nat → Except String (List PdnsZone)) :
    Nat → Nat → Nat → List Nat → String → ListZonesRun
  | 0, _, callsAcc, sleepsAcc, lastErr =>
    { calls := callsAcc, sleeps := sleepsAcc,
      result := .error (.soft ("unable to list zones: " ++ lastErr)) }
  | fuel + 1, i, callsAcc, sleepsAcc, _ =>
    match att i with
    | .ok zs => { calls := callsAcc + 1, sleeps := sleepsAcc, result := .ok zs }
    | .error e =>
      listZonesLoop att fuel (i + 1) (callsAcc + 1)
        (sleepsAcc ++ [pdnsRetryAfterTime * 2 ^ i]) e

/-- `PDNSAPIClient.ListZones` with the i-th underlying API call's
outcome given by `att`. -/
def pdnsListZones (att : Nat → Except String (List PdnsZone)) : ListZonesRun :=
  listZonesLoop att pdnsRetryLimit 0 0 [] ""

/-- The configuration fields of `NewPDNSProvider` that its validation
reads; `tlsOk` stands for the outcome of the TLS client setup. -/
structure PdnsConfigModel where
  apiKey : String := ""
  dryRun : Bool := false
  server : String := ""
  tlsOk : Except String Unit := .ok ()

/-- `NewPDNSProvider`: an empty API key and a requested dry-run each
fail construction with an error; otherwise the TLS setup outcome
decides. -/
def newPDNSProvider (cfg : PdnsConfigModel) : Except String PdnsConfigModel :=
  if cfg.apiKey == "" then
    .error "missing API Key for PDNS. Specify using --pdns-api-key="
  else if cfg.dryRun then
    .error "PDNS Provider does not currently support dry-run"
  else
    match cfg.tlsOk with
    | .error e => .error e
    | .ok _ => .ok cfg

/-- `PDNSProvider.convertRRSetToEndpoints`: non-disabled record contents
become the targets and an ALIAS rrset is read back as a CNAME
endpoint. -/
def convertRRSetToEndpoints (rr : RrSet) : List Endpoint :=
  let targets := (rr.records.filter (fun r => !r.disabled)).map (fun r => r.content)
  let rrType := if rr.type_ == "ALIAS" then "CNAME" else rr.type_
  [{ dnsName := rr.name, recordType := rrType, targets := targets,
     recordTTL := rr.ttl.getD 0 }]

/-! ## Azure Private DNS provider model (src/provider/azure/azure_private_dns.go) -/

/-- Prefix-trim helper, the model of Go `strings.TrimPrefix`. -/
def strTrimPre (s pre : String) : String :=
  if pre.data.isPrefixOf s.data then ⟨s.data.drop pre.data.length⟩ else s

/-- Drops the last `n` characters of a string, the model of Go slicing
`name[:len(name)-n]` (assuming `n ≤ len(name)`). -/
def strDropRightN (s : String) (n : Nat) : String :=
  ⟨s.data.take (s.data.length - n)⟩

/-- Removes one occurrence of a suffix, the model of Go
`strings.TrimSuffix`. -/
def strTrimSuf (s suf : String) : String :=
  if strEndsWith s suf then strDropRightN s suf.length else s

/-- Modelled from the spec: `ZoneIDName.FindZone` of the generic
`provider` package (not under `src/`), §4.2: among all known zones whose
name is a suffix match for the endpoint name (equality, or a suffix
preceded by a label separator), the longest zone name wins; the empty
string signals "not found". -/
def findZone (zoneNames : List String) (name : String) : String :=
  zoneNames.foldl
    (fun acc z =>
      if (name == z || strEndsWith name ("." ++ z)) && z.length > acc.length
      then z else acc) ""

/-- The record payload of an Azure record set
(`privatedns.RecordSetProperties`): the per-type record lists are
modelled by their extracted content strings. -/
structure AzProps where
  ttl : Option Int := none
  aRecords : List String := []
  aaaaRecords : List String := []
  cname : Option String := none
  mxRecords : List (Int × String) := []
  txtValues : List String := []
deriving Repr, DecidableEq

/-- An Azure record set (`privatedns.RecordSet`): optional type and name
(the SDK uses nullable pointers) and optional properties. -/
structure AzRecordSet where
  name : Option String := none
  type_ : Option String := none
  props : Option AzProps := none
deriving Repr, DecidableEq

/-- `extractAzurePrivateDNSTargets`: the first non-empty record family
decides the targets, in the order A, AAAA, CNAME, MX, TXT. -/
def extractAzurePrivateDNSTargets (rs : AzRecordSet) : List String :=
  match rs.props with
  | none => []
  | some p =>
    if !p.aRecords.isEmpty then p.aRecords
    else if !p.aaaaRecords.isEmpty then p.aaaaRecords
    else match p.cname with
      | some c => [c]
      | none =>
        if !p.mxRecords.isEmpty then
          p.mxRecords.map (fun m => toString m.1 ++ " " ++ m.2)
        else match p.txtValues with
          | v :: _ => [v]
          | [] => []

/-- Modelled from the spec: `formatAzureDNSName` (shared azure helper,
not under `src/`): the relative record set name "@" denotes the zone
apex and any other relative name is joined to the zone name with a
label separator. -/
def formatAzureDNSName (recordName zoneName : String) : String :=
  if recordName == "@" then zoneName else recordName ++ "." ++ zoneName

/-- The record-type portion of an Azure record set type, as computed in
`AzurePrivateDNSProvider.Records`. -/
def azRecordTypeOf (t : String) : String :=
  strTrimPre t "Microsoft.Network/privateDnsZones/"

/-- The per-record-set body of the `Records` loop: record sets lacking a
type or a name, filtered-out names (when a zone name filter is in use)
and record sets without extractable targets are skipped; otherwise an
endpoint with the record set TTL (zero when absent) is produced. -/
def azureProcessRecordSet (zoneName : String) (zoneNameFilterInUse : Bool)
    (dfMatch : String → Bool) (rs : AzRecordSet) : Option Endpoint :=
  match rs.type_ with
  | none => none
  | some t =>
    match rs.name with
    | none => none
    | some n =>
      let recordType := azRecordTypeOf t
      let name := formatAzureDNSName n zoneName
      if zoneNameFilterInUse && !dfMatch name then none
      else
        let targets := extractAzurePrivateDNSTargets rs
        if targets.isEmpty then none
        else
          let ttl : Int := match rs.props with
            | some p => p.ttl.getD 0
            | none => 0
          some { dnsName := name, recordType := recordType, targets := targets,
                 recordTTL := ttl }

/-- The pager walk of `Records` for one zone: a failing page fetch
surfaces as a soft error, otherwise the pages' record sets are
concatenated. -/
def azureZonePages : List (Except String (List AzRecordSet)) →
    Except ProviderError (List AzRecordSet)
  | [] => .ok []
  | .error e :: _ => .error (.soft ("failed to fetch dns records: " ++ e))
  | .ok rss :: rest =>
    match azureZonePages rest with
    | .error e => .error e
    | .ok more => .ok (rss ++ more)

/-- `AzurePrivateDNSProvider.Records` over the zones the provider
manages: each zone's pages are fetched (`pages` gives the page outcomes
per zone name) and their record sets converted; a page fetch failure
aborts with the soft error. -/
def azureRecords (zoneNameFilterInUse : Bool) (dfMatch : String → Bool)
    (pages : String → List (Except String (List AzRecordSet))) :
    List String → Except ProviderError (List Endpoint)
  | [] => .ok []
  | z :: zs =>
    match azureZonePages (pages z) with
    | .error e => .error e
    | .ok rss =>
      match azureRecords zoneNameFilterInUse dfMatch pages zs with
      | .error e => .error e
      | .ok more =>
        .ok (rss.filterMap (azureProcessRecordSet z zoneNameFilterInUse dfMatch) ++ more)

/-- `recordSetNameForZone`: the zone suffix and a remaining trailing dot
are stripped from the endpoint name; the apex becomes "@". -/
def recordSetNameForZone (zone : String) (ep : Endpoint) : String :=
  let name := strDropRightN ep.dnsName zone.length
  let name := strTrimSuf name "."
  if name == "" then "@" else name

/-- A mutating Azure record-set API call: `Delete` or `CreateOrUpdate`. -/
inductive AzCall where
  | del (zone recType name : String)
  | createOrUpdate (zone recType name : String) (props : AzProps)
deriving Repr, DecidableEq

/-- Appends a value to the entry of a key in an insertion-ordered
association list (the model of appending to a Go map-of-slices entry). -/
def assocAppend {α : Type} (m : List (String × List α)) (k : String) (a : α) :
    List (String × List α) :=
  match m with
  | [] => [(k, [a])]
  | (k', v) :: rest =>
    if k' == k then (k', v ++ [a]) :: rest else (k', v) :: assocAppend rest k a

/-- The `mapChange` closure of `mapChanges`: a change whose DNS name
finds no zone is ignored, otherwise it is appended to its zone's
entry. -/
def azureMapChange (zoneNames : List String)
    (m : List (String × List Endpoint)) (ep : Endpoint) :
    List (String × List Endpoint) :=
  let zone := findZone zoneNames ep.dnsName
  if zone == "" then m else assocAppend m zone ep

/-- `AzurePrivateDNSProvider.mapChanges`: Delete changes map into the
deleted map; Create and UpdateNew changes map into the updated map. -/
def azureMapChanges (zoneNames : List String) (changes : Changes) :
    List (String × List Endpoint) × List (String × List Endpoint) :=
  let deleted := changes.delete.foldl (azureMapChange zoneNames) []
  let updated := (changes.create ++ changes.updateNew).foldl (azureMapChange zoneNames) []
  (deleted, updated)

/-- The per-zone body of `deleteRecords`: filtered-out names are
skipped, dry-run logs instead of calling, otherwise a `Delete` call is
issued (its failure is only logged). -/
def azureDeleteZone (dryRun : Bool) (dfMatch : String → Bool) (zone : String) :
    List Endpoint → List AzCall
  | [] => []
  | ep :: rest =>
    let more := azureDeleteZone dryRun dfMatch zone rest
    if !dfMatch ep.dnsName then more
    else if dryRun then more
    else .del zone ep.recordType (recordSetNameForZone zone ep) :: more

/-- `AzurePrivateDNSProvider.deleteRecords` over the deleted change
map. -/
def azureDeleteRecords (dryRun : Bool) (dfMatch : String → Bool) :
    List (String × List Endpoint) → List AzCall
  | [] => []
  | (zone, eps) :: rest =>
    azureDeleteZone dryRun dfMatch zone eps ++ azureDeleteRecords dryRun dfMatch rest

/-- `AzurePrivateDNSProvider.newRecordSet`: the endpoint TTL is used
when configured (positive), the provider default otherwise (the
`endpoint.TTL.IsConfigured` helper is not under `src/` and is modelled
from the spec: zero/unset means unconfigured); unsupported record types
and MX target parse failures (`pm` gives the parse outcome) fail. -/
def azureNewRecordSet (pm : String → Except String (Int × String))
    (dfltTTL : Int) (ep : Endpoint) : Except String AzProps :=
  let ttl : Int := if ep.recordTTL > 0 then ep.recordTTL else dfltTTL
  if ep.recordType == "A" then
    .ok { ttl := some ttl, aRecords := ep.targets }
  else if ep.recordType == "AAAA" then
    .ok { ttl := some ttl, aaaaRecords := ep.targets }
  else if ep.recordType == "CNAME" then
    .ok { ttl := some ttl, cname := some (ep.targets.headD "") }
  else if ep.recordType == "MX" then
    match ep.targets.mapM pm with
    | .error e => .error e
    | .ok mxs => .ok { ttl := some ttl, mxRecords := mxs }
  else if ep.recordType == "TXT" then
    .ok { ttl := some ttl, txtValues := [ep.targets.headD ""] }
  else .error ("unsupported record type '" ++ ep.recordType ++ "'")

/-- The per-zone body of `updateRecords`: filtered-out names are
skipped, dry-run logs and continues before building the record set,
otherwise a `CreateOrUpdate` call is issued when `newRecordSet`
succeeds (failures are only logged). -/
def azureUpdateZone (dryRun : Bool) (dfMatch : String → Bool)
    (pm : String → Except String (Int × String)) (dfltTTL : Int) (zone : String) :
    List Endpoint → List AzCall
  | [] => []
  | ep :: rest =>
    let more := azureUpdateZone dryRun dfMatch pm dfltTTL zone rest
    if !dfMatch ep.dnsName then more
    else if dryRun then more
    else
      match azureNewRecordSet pm dfltTTL ep with
      | .error _ => more
      | .ok props =>
        .createOrUpdate zone ep.recordType (recordSetNameForZone zone ep) props :: more

/-- `AzurePrivateDNSProvider.updateRecords` over the updated change
map. -/
def azureUpdateRecords (dryRun : Bool) (dfMatch : String → Bool)
    (pm : String → Except String (Int × String)) (dfltTTL : Int) :
    List (String × List Endpoint) → List AzCall
  | [] => []
  | (zone, eps) :: rest =>
    azureUpdateZone dryRun dfMatch pm dfltTTL zone eps
      ++ azureUpdateRecords dryRun dfMatch pm dfltTTL rest

/-- `AzurePrivateDNSProvider.ApplyChanges`: the zones are fetched
(`zonesRes` is that outcome), the changes are mapped to zones, all
deletions are applied, then all creations/updates, and nil is
returned. -/
def azureApplyChanges (zonesRes : Except String (List String)) (dryRun : Bool)
    (dfMatch : String → Bool) (pm : String → Except String (Int × String))
    (dfltTTL : Int) (changes : Changes) : Except String (List AzCall) :=
  match zonesRes with
  | .error e => .error e
  | .ok zoneNames =>
    let maps := azureMapChanges zoneNames changes
    .ok (azureDeleteRecords dryRun dfMatch maps.1
      ++ azureUpdateRecords dryRun dfMatch pm dfltTTL maps.2)

/-! ## CoreDNS provider model (src/provider/coredns/coredns.go) -/

/-- Splits a character list at every occurrence of a separator, the
model of Go `strings.Split` for a one-character separator. -/
def charSplit (c : Char) : List Char → List (List Char)
  | [] => [[]]
  | x :: xs =>
    let r := charSplit c xs
    if x = c then [] :: r
    else
      match r with
      | [] => [[x]]
      | y :: ys => (x :: y) :: ys

/-- String form of `charSplit`. -/
def strSplitOnChar (c : Char) (s : String) : List String :=
  (charSplit c s.data).map (fun l => ⟨l⟩)

/-- Joins strings with a separator, the model of Go `strings.Join`. -/
def joinSep (sep : String) : List String → String
  | [] => ""
  | [x] => x
  | x :: xs => x ++ sep ++ joinSep sep xs

/-- Number of occurrences of "." in a string, the model of
`strings.Count(s, ".")`. -/
def countDots (s : String) : Nat := (s.data.filter (fun c => c == '.')).length

/-- Lookup in an insertion-ordered association list modelling a Go
`map[string]string`. -/
def labelsGet : List (String × String) → String → Option String
  | [], _ => none
  | (k', v) :: rest, k => if k' == k then some v else labelsGet rest k

/-- Key update in an insertion-ordered association list modelling a Go
`map[string]string` assignment. -/
def labelsPut : List (String × String) → String → String → List (String × String)
  | [], k, v => [(k, v)]
  | (k', v') :: rest, k, v =>
    if k' == k then (k, v) :: rest else (k', v') :: labelsPut rest k v

/-- Updates the element of a list at an index in place (identity when
the index is out of range), the model of writing through a pointer or
slice index. -/
def storeModify {α : Type} : List α → Nat → (α → α) → List α
  | [], _, _ => []
  | x :: xs, 0, f => f x :: xs
  | x :: xs, n + 1, f => x :: storeModify xs n f

/-- The CoreDNS `Service` etcd record; the fields the provider logic
reads and writes. -/
structure CoreSvc where
  host : String := ""
  text : String := ""
  ttl : Int := 0
  targetStrip : Nat := 0
  key : String := ""
deriving Repr, DecidableEq

/-- The CoreDNS view of an endpoint in the `Records` model: labels are
held inline; aliasing of endpoints themselves is modelled by indices
into a store. -/
structure CoreEp where
  dnsName : String
  recordType : String
  targets : List String := []
  recordTTL : Int := 0
  labels : List (String × String) := []
deriving Repr, DecidableEq

/-- The `randomPrefixLabel` constant. -/
def randomPfxLabel : String := "prefix"

/-- `guessRecordType`: IP targets (per the `isIP` predicate modelling
`net.ParseIP`) give an A record, others a CNAME. -/
def guessRecordType (isIP : String → Bool) (target : String) : String :=
  if isIP target then "A" else "CNAME"

/-- `findEp` over the result list of endpoint pointers: the first entry
whose DNS name matches is returned (as its store index here). -/
def findEpIdx (store : List CoreEp) (result : List Nat) (dnsName : String) : Option Nat :=
  match result with
  | [] => none
  | i :: rest =>
    match store.get? i with
    | some ep => if ep.dnsName == dnsName then some i else findEpIdx store rest dnsName
    | none => findEpIdx store rest dnsName

/-- The label writes shared by both branches of the `Records` host
case: `originalText`, the random-prefix label and the per-host label. -/
def setHostLabels (ep : CoreEp) (text pfxLabel host : String) : CoreEp :=
  { ep with labels :=
      labelsPut (labelsPut (labelsPut ep.labels "originalText" text)
        randomPfxLabel pfxLabel) host pfxLabel }

/-- The DNS name a CoreDNS service key denotes: the key is stripped of
the configured etcd prefix, split at "/", reversed, and all labels from
`targetStrip` on are joined with dots. -/
def coreSvcDnsName (pfx : String) (svc : CoreSvc) : String :=
  joinSep "." (((strSplitOnChar '/' (strTrimPre svc.key pfx)).reverse).drop svc.targetStrip)

/-- The stripped-prefix part of a CoreDNS service key (the labels before
`targetStrip`). -/
def coreSvcPfxPart (pfx : String) (svc : CoreSvc) : String :=
  joinSep "." (((strSplitOnChar '/' (strTrimPre svc.key pfx)).reverse).take svc.targetStrip)

/-- One iteration of the `coreDNSProvider.Records` service loop over the
store of endpoints and the result list of indices: a host service
either extends the endpoint found for its DNS name (and appends the
same endpoint to the result again) or creates a new one; a text service
always appends a fresh TXT endpoint. -/
def coreRecordsStep (pfx : String) (dfMatch : String → Bool) (isIP : String → Bool)
    (st : List CoreEp × List Nat) (svc : CoreSvc) : List CoreEp × List Nat :=
  let store := st.1
  let result := st.2
  let dnsName := coreSvcDnsName pfx svc
  if !dfMatch dnsName then (store, result)
  else
    let pfxLabel := coreSvcPfxPart pfx svc
    let st1 :=
      if svc.host != "" then
        match findEpIdx store result dnsName with
        | some i =>
          (storeModify store i (fun ep =>
            setHostLabels { ep with targets := ep.targets ++ [svc.host] }
              svc.text pfxLabel svc.host),
           result ++ [i])
        | none =>
          (store ++ [setHostLabels
              { dnsName := dnsName, recordType := guessRecordType isIP svc.host,
                targets := [svc.host], recordTTL := svc.ttl, labels := [] }
              svc.text pfxLabel svc.host],
           result ++ [store.length])
      else (store, result)
    if svc.text != "" then
      (st1.1 ++ [{ dnsName := dnsName, recordType := "TXT", targets := [svc.text],
                   labels := labelsPut [] randomPfxLabel pfxLabel : CoreEp }],
       st1.2 ++ [st1.1.length])
    else st1

/-- `coreDNSProvider.Records` over the services the backend returned:
the final result list of endpoint pointers, dereferenced. -/
def coreRecords (pfx : String) (dfMatch : String → Bool) (isIP : String → Bool)
    (svcs : List CoreSvc) : List CoreEp :=
  let st := svcs.foldl (coreRecordsStep pfx dfMatch isIP) ([], [])
  st.2.filterMap (fun i => st.1.get? i)

/-! ### CoreDNS ApplyChanges model

Endpoint label maps live in a heap and endpoints hold a reference into
it, mirroring Go's shared `map[string]string` values; the mutating etcd
calls a run would issue are recorded in a trace. -/

/-- A CoreDNS endpoint whose labels are a reference into the label
heap. -/
structure EpRef where
  dnsName : String
  recordType : String
  targets : List String := []
  recordTTL : Int := 0
  labelsRef : Nat := 0
deriving Repr, DecidableEq

/-- Modelled from the spec: the Changes value of §3 for the CoreDNS
model, with endpoints holding label-map references. -/
structure CoreChanges where
  create : List EpRef := []
  update : List (EpRef × EpRef) := []
  delete : List EpRef := []
deriving Repr

/-- A mutating etcd call of the CoreDNS client: `SaveService` or
`DeleteService`. -/
inductive CoreCall where
  | save (svc : CoreSvc)
  | deleteKey (key : String)
deriving Repr, DecidableEq

/-- The threaded state of a CoreDNS `ApplyChanges` run: the label heap,
the supply of random prefixes the run draws from, and the trace of
mutating etcd calls issued so far. -/
structure CoreSt where
  heap : List (List (String × String)) := []
  pfxSupply : List String := []
  calls : List CoreCall := []
deriving Repr

/-- Reads a label map out of the heap. -/
def heapGet (h : List (List (String × String))) (r : Nat) : List (String × String) :=
  h.getD r []

/-- Draws the next random prefix (`fmt.Sprintf("%08x", rand.Int31())`)
from the supply. -/
def nextPfx (st : CoreSt) : String × CoreSt :=
  match st.pfxSupply with
  | [] => ("00000000", st)
  | p :: ps => (p, { st with pfxSupply := ps })

/-- `etcdKeyFor`: the DNS name is split at dots, reversed and joined
with "/" under the configured prefix. -/
def etcdKeyFor (pfx dnsName : String) : String :=
  pfx ++ joinSep "/" ((strSplitOnChar '.' dnsName).reverse)

/-- `groupEndpoints`: Create endpoints are grouped by DNS name; each
UpdateNew endpoint has its labels replaced by the paired UpdateOld
endpoint's labels (the same map reference) and is grouped as well. -/
def coreGroupEndpoints (changes : CoreChanges) : List (String × List EpRef) :=
  let g := changes.create.foldl (fun m ep => assocAppend m ep.dnsName ep) []
  changes.update.foldl
    (fun m p => assocAppend m p.2.dnsName { p.2 with labelsRef := p.1.labelsRef }) g

/-- `shouldSkipLabel`: the bookkeeping labels never map to etcd keys. -/
def shouldSkipLabel (label : String) : Bool :=
  ["originalText", "prefix", "resource"].contains label

/-- The target loop of `createServicesForEndpoint`: each target gets a
prefix (from the endpoint's labels, else a fresh random one), a service
record is built for it, and the prefix is written back into the shared
label map. -/
def coreSvcLoop (pfx : String) (ep : EpRef) (dnsName : String) :
    List String → CoreSt → List CoreSvc × CoreSt
  | [], st => ([], st)
  | t :: ts, st =>
    let labels := heapGet st.heap ep.labelsRef
    let p0 := (labelsGet labels t).getD ""
    let pick := if p0 == "" then nextPfx st else (p0, st)
    let pfxStr := pick.1
    let st1 := pick.2
    let svc : CoreSvc :=
      { host := t, text := (labelsGet labels "originalText").getD "",
        key := etcdKeyFor pfx (pfxStr ++ "." ++ dnsName),
        targetStrip := countDots pfxStr + 1,
        ttl := ep.recordTTL % 4294967296 }
    let st2 := { st1 with
      heap := storeModify st1.heap ep.labelsRef (fun m => labelsPut m t pfxStr) }
    let r := coreSvcLoop pfx ep dnsName ts st2
    (svc :: r.1, r.2)

/-- The label-cleanup loop of `createServicesForEndpoint`: labels that
are not bookkeeping labels and no longer name a target have their etcd
key deleted (skipped in dry-run; a client failure aborts). -/
def coreCleanupLabels (pfx dnsName : String) (dryRun : Bool)
    (delE : String → Option String) (ep : EpRef) :
    List (String × String) → CoreSt → Option String × CoreSt
  | [], st => (none, st)
  | (label, labelPfx) :: rest, st =>
    if shouldSkipLabel label then coreCleanupLabels pfx dnsName dryRun delE ep rest st
    else if ep.targets.contains label then
      coreCleanupLabels pfx dnsName dryRun delE ep rest st
    else
      let key := etcdKeyFor pfx (labelPfx ++ "." ++ dnsName)
      if dryRun then coreCleanupLabels pfx dnsName dryRun delE ep rest st
      else
        let st1 := { st with calls := st.calls ++ [.deleteKey key] }
        match delE key with
        | some e => (some e, st1)
        | none => coreCleanupLabels pfx dnsName dryRun delE ep rest st1

/-- `createServicesForEndpoint`: builds the services for the endpoint's
targets, then cleans outdated labels. -/
def coreCreateServicesForEndpoint (pfx : String) (dryRun : Bool)
    (delE : String → Option String) (dnsName : String) (ep : EpRef) (st : CoreSt) :
    Option String × List CoreSvc × CoreSt :=
  let r := coreSvcLoop pfx ep dnsName ep.targets st
  let labels := heapGet r.2.heap ep.labelsRef
  let c := coreCleanupLabels pfx dnsName dryRun delE ep labels r.2
  (c.1, r.1, c.2)

/-- The TXT loop of `updateTXTRecords`: each TXT endpoint of the group
either overwrites the text of the service at its index or appends a new
text-only service; the index counts the TXT endpoints consumed. -/
def coreUpdateTXTLoop (pfx dnsName : String) :
    List EpRef → List CoreSvc → Nat → CoreSt → List CoreSvc × Nat × CoreSt
  | [], services, index, st => (services, index, st)
  | ep :: rest, services, index, st =>
    if ep.recordType != "TXT" then coreUpdateTXTLoop pfx dnsName rest services index st
    else
      let grown :=
        if services.length ≤ index then
          let labels := heapGet st.heap ep.labelsRef
          let p0 := (labelsGet labels randomPfxLabel).getD ""
          let pick := if p0 == "" then nextPfx st else (p0, st)
          (services ++ [{ key := etcdKeyFor pfx (pick.1 ++ "." ++ dnsName),
                          targetStrip := countDots pick.1 + 1,
                          ttl := ep.recordTTL % 4294967296 : CoreSvc }], pick.2)
        else (services, st)
      let services2 := storeModify grown.1 index
        (fun s => { s with text := ep.targets.headD "" })
      coreUpdateTXTLoop pfx dnsName rest services2 (index + 1) grown.2

/-- `updateTXTRecords`: after the TXT loop, when any TXT endpoint was
consumed the text of all remaining services is cleared. -/
def coreUpdateTXT (pfx dnsName : String) (group : List EpRef)
    (services : List CoreSvc) (st : CoreSt) : List CoreSvc × CoreSt :=
  let r := coreUpdateTXTLoop pfx dnsName group services 0 st
  let services := r.1
  let index := r.2.1
  (if 0 < index then
    services.take index ++ (services.drop index).map (fun s => { s with text := "" })
  else services, r.2.2)

/-- The service-building half of `applyGroup`: non-TXT endpoints of the
group contribute services (an error aborts). -/
def coreGroupSvcs (pfx : String) (dryRun : Bool) (delE : String → Option String)
    (dnsName : String) : List EpRef → CoreSt → Option String × List CoreSvc × CoreSt
  | [], st => (none, [], st)
  | ep :: rest, st =>
    if ep.recordType == "TXT" then coreGroupSvcs pfx dryRun delE dnsName rest st
    else
      match coreCreateServicesForEndpoint pfx dryRun delE dnsName ep st with
      | (some e, _, st1) => (some e, [], st1)
      | (none, svcs, st1) =>
        let r := coreGroupSvcs pfx dryRun delE dnsName rest st1
        (r.1, svcs ++ r.2.1, r.2.2)

/-- The save loop of `applyGroup`: each service is saved (skipped in
dry-run; a client failure aborts). -/
def coreSaveLoop (dryRun : Bool) (saveE : CoreSvc → Option String) :
    List CoreSvc → CoreSt → Option String × CoreSt
  | [], st => (none, st)
  | svc :: rest, st =>
    if dryRun then coreSaveLoop dryRun saveE rest st
    else
      let st1 := { st with calls := st.calls ++ [.save svc] }
      match saveE svc with
      | some e => (some e, st1)
      | none => coreSaveLoop dryRun saveE rest st1

/-- `coreDNSProvider.applyGroup`: builds the group's services, merges
the TXT records in, and saves every service. -/
def coreApplyGroup (pfx : String) (dryRun : Bool) (saveE : CoreSvc → Option String)
    (delE : String → Option String) (dnsName : String) (group : List EpRef)
    (st : CoreSt) : Option String × CoreSt :=
  match coreGroupSvcs pfx dryRun delE dnsName group st with
  | (some e, _, st1) => (some e, st1)
  | (none, services, st1) =>
    let r := coreUpdateTXT pfx dnsName group services st1
    coreSaveLoop dryRun saveE r.1 r.2

/-- The group loop of `coreDNSProvider.ApplyChanges`: groups whose name
the domain filter rejects are skipped; an error aborts. -/
def coreApplyGroups (pfx : String) (dryRun : Bool) (dfMatch : String → Bool)
    (saveE : CoreSvc → Option String) (delE : String → Option String) :
    List (String × List EpRef) → CoreSt → Option String × CoreSt
  | [], st => (none, st)
  | (d, g) :: rest, st =>
    if !dfMatch d then coreApplyGroups pfx dryRun dfMatch saveE delE rest st
    else
      match coreApplyGroup pfx dryRun saveE delE d g st with
      | (some e, st1) => (some e, st1)
      | (none, st1) => coreApplyGroups pfx dryRun dfMatch saveE delE rest st1

/-- `coreDNSProvider.deleteEndpoints`: each deleted endpoint's etcd key
(with its random-prefix label when present) is deleted (skipped in
dry-run; a client failure aborts). -/
def coreDeleteEndpoints (pfx : String) (dryRun : Bool)
    (delE : String → Option String) : List EpRef → CoreSt → Option String × CoreSt
  | [], st => (none, st)
  | ep :: rest, st =>
    let labels := heapGet st.heap ep.labelsRef
    let p0 := (labelsGet labels randomPfxLabel).getD ""
    let dn := if p0 != "" then p0 ++ "." ++ ep.dnsName else ep.dnsName
    let key := etcdKeyFor pfx dn
    if dryRun then coreDeleteEndpoints pfx dryRun delE rest st
    else
      let st1 := { st with calls := st.calls ++ [.deleteKey key] }
      match delE key with
      | some e => (some e, st1)
      | none => coreDeleteEndpoints pfx dryRun delE rest st1

/-- `coreDNSProvider.ApplyChanges`: groups the Create/Update endpoints,
applies each group, and deletes the Delete endpoints. -/
def coreApplyChanges (pfx : String) (dryRun : Bool) (dfMatch : String → Bool)
    (saveE : CoreSvc → Option String) (delE : String → Option String)
    (changes : CoreChanges) (st : CoreSt) : Option String × CoreSt :=
  match coreApplyGroups pfx dryRun dfMatch saveE delE (coreGroupEndpoints changes) st with
  | (some e, st1) => (some e, st1)
  | (none, st1) => coreDeleteEndpoints pfx dryRun delE changes.delete st1

/-! ## Ingress source model (src/unnamed/part_000) -/

/-- A parsed label-selector requirement of the annotation filter; only
its key is consulted by the validation. -/
structure Requirement where
  key : String
deriving Repr, DecidableEq

/-- The `kubernetes.io/ingress.class` annotation key constant. -/
def ingressClassAnnotKey : String := "kubernetes.io/ingress.class"

/-- `NewIngressSource` up to its construction result: template parsing
(`tmplRes`), the mutual-exclusion validation of ingress class names
against an annotation filter mentioning the ingress-class key
(`selectorRes` is the parsed filter), and the informer cache sync
(`syncRes`); `classNames` distinguishes a nil slice from a present
one. -/
def newIngressSource (tmplRes : Except String Unit)
    (classNames : Option (List String)) (annotFilter : String)
    (selectorRes : Except String (List Requirement))
    (syncRes : Except String Unit) : Except String Unit :=
  match tmplRes with
  | .error e => .error e
  | .ok _ =>
    let chk : Except String Unit :=
      if classNames.isSome && annotFilter != "" then
        match selectorRes with
        | .error e => .error e
        | .ok reqs =>
          if reqs.any (fun r => r.key == ingressClassAnnotKey) then
            .error "--ingress-class is mutually exclusive with the kubernetes.io/ingress.class annotation filter"
          else .ok ()
      else .ok ()
    match chk with
    | .error e => .error e
    | .ok _ =>
      match syncRes with
      | .error e => .error e
      | .ok _ => .ok ()

/-! ## Statement helpers and concrete inputs -/

/-- The (name, changetype) pairs of the rrsets a `PatchZone` call
carries. -/
def patchChangetypes (c : PdnsCall) : List (String × String) :=
  match c with
  | .patchZone _ z => z.rrsets.map (fun r => (r.name, r.changetype))

/-- Whether every rrset of a `PatchZone` call carries the given
changetype. -/
def callAllCt (s : String) (c : PdnsCall) : Bool :=
  match c with
  | .patchZone _ z => z.rrsets.all (fun r => r.changetype == s)

/-- Whether an Azure call is a record-set deletion. -/
def azIsDel (c : AzCall) : Bool :=
  match c with
  | .del _ _ _ => true
  | _ => false

/-- Whether an Azure call is a record-set creation/update. -/
def azIsUpd (c : AzCall) : Bool :=
  match c with
  | .createOrUpdate _ _ _ _ => true
  | _ => false

/-- A CoreDNS service the `Records` loop keeps: its DNS name passes the
domain filter and it carries a host. -/
def keptSvc (pfx : String) (dfM : String → Bool) (s : CoreSvc) : Bool :=
  dfM (coreSvcDnsName pfx s) && s.host != ""

/-- The hosts of the kept services carrying the given DNS name, in
backend order. -/
def hostsForName (pfx : String) (dfM : String → Bool) (svcs : List CoreSvc)
    (d : String) : List String :=
  (svcs.filter (fun s => keptSvc pfx dfM s && coreSvcDnsName pfx s == d)).map
    (fun s => s.host)

/-- Dereferences an endpoint-store index (a dummy endpoint out of
range; the loops never read out of range). -/
def epAt (store : List CoreEp) (i : Nat) : CoreEp :=
  store.getD i { dnsName := "", recordType := "" }

/-- The invariant of the `Records` service loop (for text-free
services): result indices are in range, distinct names map to distinct
indices, the result names are the kept services' names in order, and
each referenced endpoint holds exactly the hosts of the kept services
of its name. -/
def coreRecInv (pfx : String) (dfM : String → Bool) (done : List CoreSvc)
    (store : List CoreEp) (result : List Nat) : Prop :=
  (∀ i ∈ result, i < store.length) ∧
  (∀ i ∈ result, ∀ j ∈ result, (epAt store i).dnsName = (epAt store j).dnsName → i = j) ∧
  (result.map (fun i => (epAt store i).dnsName)
    = (done.filter (keptSvc pfx dfM)).map (coreSvcDnsName pfx)) ∧
  (∀ i ∈ result, (epAt store i).targets = hostsForName pfx dfM done (epAt store i).dnsName)

/-- A client model for the PDNS ordering counterexample: one zone, an
unconfigured filter, successful patches. -/
def pdnsCexClient : PdnsClientModel :=
  { listZonesRes := .ok [{ id := "z1", name := "example.com." }],
    df := { configured := false, matchName := fun _ => true },
    patchRes := fun _ _ => none }

/-- A change set deleting an A record and creating a CNAME record at
one and the same DNS name in one cycle. -/
def pdnsCexChanges : Changes :=
  { create := [{ dnsName := "www.example.com", recordType := "CNAME",
                 targets := ["target.example.com"] }],
    delete := [{ dnsName := "www.example.com", recordType := "A",
                 targets := ["1.2.3.4"] }] }

/-- Two host services stored under distinct etcd keys that denote the
same DNS name. -/
def coreCexSvcs : List CoreSvc :=
  [{ host := "1.1.1.1", key := "/skydns/com/example/a/x1", targetStrip := 1 },
   { host := "2.2.2.2", key := "/skydns/com/example/a/x2", targetStrip := 1 }]

/-- A text-only service followed by a host service denoting the same
DNS name, stored under distinct etcd keys. -/
def coreCexMixedSvcs : List CoreSvc :=
  [{ text := "t", key := "/skydns/com/example/a/x1", targetStrip := 1 },
   { host := "9.9.9.9", key := "/skydns/com/example/a/x2", targetStrip := 1 }]

/-- An update pair whose old endpoint's labels live at heap slot 0 and
whose new endpoint's at heap slot 1. -/
def coreCexChanges : CoreChanges :=
  { update := [({ dnsName := "a.example.com", recordType := "A",
                  targets := ["1.1.1.1"], labelsRef := 0 },
                { dnsName := "a.example.com", recordType := "A",
                  targets := ["2.2.2.2"], labelsRef := 1 })] }

/-- A two-slot label heap: the old endpoint's map holds an ownership
label, the new endpoint's map is empty. -/
def coreCexHeap : List (List (String × String)) :=
  [[("owner", "me")], []]

/-- A plain A endpoint with unconfigured TTL, used as a concrete
witness input. -/
def w9Ep : Endpoint :=
  { dnsName := "www.example.com", recordType := "A", targets := ["1.2.3.4"] }

/-- An endpoint whose TTL exceeds the int32 maximum. -/
def w9EpBig : Endpoint :=
  { dnsName := "www.example.com", recordType := "A", targets := ["1.2.3.4"],
    recordTTL := 2147483648 }

/-- A CNAME endpoint at the apex of zone `example.com.`. -/
def apexCnameEp : Endpoint :=
  { dnsName := "example.com", recordType := "CNAME",
    targets := ["target.example.com"] }

/-- Decidable equality for `Except` results, used to evaluate the models
at concrete inputs. -/
instance {ε α : Type} [DecidableEq ε] [DecidableEq α] : DecidableEq (Except ε α) :=
  fun a b =>
    match a, b with
    | .error x, .error y =>
      if h : x = y then .isTrue (by rw [h])
      else .isFalse (fun hc => by cases hc; exact h rfl)
    | .ok x, .ok y =>
      if h : x = y then .isTrue (by rw [h])
      else .isFalse (fun hc => by cases hc; exact h rfl)
    | .error _, .ok _ => .isFalse (fun hc => by cases hc)
    | .ok _, .error _ => .isFalse (fun hc => by cases hc)

/-! ## Theorems -/

/-! ### Basic lemmas about the PDNS rrset construction -/

lemma mkRrSet_name {z : String} {ct : PdnsChangeType} {ep : Endpoint} {rr : RrSet}
    (h : mkRrSet z ct ep = .ok rr) : rr.name = ensureTrailingDot ep.dnsName := by
  cases ct <;> simp only [mkRrSet] at h
  · split at h
    · cases h
    · cases h
      rfl
  · cases h
    rfl

lemma mkRrSet_changetype {z : String} {ct : PdnsChangeType} {ep : Endpoint} {rr : RrSet}
    (h : mkRrSet z ct ep = .ok rr) : rr.changetype = ct.str := by
  cases ct <;> simp only [mkRrSet] at h
  · split at h
    · cases h
    · cases h
      rfl
  · cases h
    rfl

lemma mkRrSet_ok {z : String} {ct : PdnsChangeType} {ep : Endpoint}
    (h : ep.recordTTL ≤ maxInt32) : ∃ rr, mkRrSet z ct ep = .ok rr := by
  cases ct <;> simp only [mkRrSet]
  · rw [if_neg (by omega)]
    exact ⟨_, rfl⟩
  · exact ⟨_, rfl⟩

/-! ### Claim C9: TTL handling -/

/-- C9: a zero/unset RecordTTL means "use the provider default": for a
REPLACE change the PowerDNS conversion emits TTL 300 when the endpoint
TTL is 0 and the endpoint's own TTL otherwise, fails with a soft error
when the TTL exceeds the int32 maximum, and emits no TTL at all on
DELETE rrsets; the Azure Private DNS `newRecordSet` substitutes the
default TTL whenever the endpoint's TTL is not configured. -/
theorem ttl_zero_means_default :
    (∀ (z : String) (ep : Endpoint) (rr : RrSet),
       mkRrSet z .replace ep = .ok rr →
       rr.ttl = some (if ep.recordTTL = 0 then pdnsDefaultTTL else ep.recordTTL)) ∧
    (∀ (z : String) (ep : Endpoint), maxInt32 < ep.recordTTL →
       mkRrSet z .replace ep
         = .error (.soft "value of record TTL overflows, limited to int32")) ∧
    (∀ (z : String) (ep : Endpoint) (rr : RrSet),
       mkRrSet z .delete ep = .ok rr → rr.ttl = none) ∧
    (∀ (pm : String → Except String (Int × String)) (dfltTTL : Int)
       (ep : Endpoint) (props : AzProps),
       azureNewRecordSet pm dfltTTL ep = .ok props →
       props.ttl = some (if 0 < ep.recordTTL then ep.recordTTL else dfltTTL)) := by
  refine ⟨?_, ?_, ?_, ?_⟩
  · intro z ep rr h
    simp only [mkRrSet] at h
    split at h
    · cases h
    · cases h
      simp [beq_iff_eq]
  · intro z ep h
    simp only [mkRrSet]
    rw [if_pos h]
  · intro z ep rr h
    simp only [mkRrSet] at h
    cases h
    rfl
  · intro pm dfltTTL ep props h
    simp only [azureNewRecordSet] at h
    repeat' split at h
    all_goals try cases h
    all_goals simp_all
    all_goals rw [if_neg (by omega)]

/-- Witness for C9 at concrete inputs: an endpoint with TTL 0 gets TTL
300 on REPLACE, a TTL of `2^31` overflows softly, a DELETE rrset has
no TTL, and an Azure A endpoint with unconfigured TTL gets the default
TTL 7. -/
theorem ttl_zero_means_default_witness :
    (mkRrSet "example.com." .replace w9Ep).map (fun rr => rr.ttl) = .ok (some 300) ∧
    mkRrSet "example.com." .replace w9EpBig
      = .error (.soft "value of record TTL overflows, limited to int32") ∧
    (mkRrSet "example.com." .delete w9Ep).map (fun rr => rr.ttl) = .ok none ∧
    (azureNewRecordSet (fun _ => .error "no mx") 7 w9Ep).map (fun p => p.ttl)
      = .ok (some 7) := by
  have h := ttl_zero_means_default
  refine ⟨?_, ?_, ?_, ?_⟩
  · obtain ⟨rr, hrr⟩ : ∃ rr, mkRrSet "example.com." .replace w9Ep = .ok rr :=
      mkRrSet_ok (by decide)
    rw [hrr]
    simp [Except.map, h.1 _ _ _ hrr, w9Ep, pdnsDefaultTTL]
  · exact h.2.1 "example.com." w9EpBig (by decide)
  · obtain ⟨rr, hrr⟩ : ∃ rr, mkRrSet "example.com." .delete w9Ep = .ok rr :=
      mkRrSet_ok (by decide)
    rw [hrr]
    simp [Except.map, h.2.2.1 _ _ _ hrr]
  · obtain ⟨p, hp⟩ : ∃ p, azureNewRecordSet (fun _ => .error "no mx") 7 w9Ep = .ok p :=
      ⟨_, rfl⟩
    rw [hp]
    simp [Except.map, h.2.2.2 _ _ _ _ hp, w9Ep]

/-! ### Claim C10: apex CNAME/ALIAS round trip -/

/-- C10: the PowerDNS provider converts CNAME and ALIAS as a round trip
at the zone apex: a CNAME endpoint whose fully-qualified name equals
the zone name is emitted with rrset type ALIAS, every ALIAS rrset is
read back as a CNAME endpoint, and composing the two yields the
original CNAME record type. -/
theorem apex_cname_alias_roundtrip :
    (∀ (z : String) (ct : PdnsChangeType) (ep : Endpoint) (rr : RrSet),
       ensureTrailingDot ep.dnsName = z → ep.recordType = "CNAME" →
       mkRrSet z ct ep = .ok rr → rr.type_ = "ALIAS") ∧
    (∀ rr : RrSet, rr.type_ = "ALIAS" →
       ∀ e ∈ convertRRSetToEndpoints rr, e.recordType = "CNAME") ∧
    (∀ (z : String) (ep : Endpoint) (rr : RrSet),
       ensureTrailingDot ep.dnsName = z → ep.recordType = "CNAME" →
       mkRrSet z .replace ep = .ok rr →
       ∀ e ∈ convertRRSetToEndpoints rr, e.recordType = "CNAME") := by
  have hAlias : ∀ (z : String) (ct : PdnsChangeType) (ep : Endpoint) (rr : RrSet),
      ensureTrailingDot ep.dnsName = z → ep.recordType = "CNAME" →
      mkRrSet z ct ep = .ok rr → rr.type_ = "ALIAS" := by
    intro z ct ep rr hz ht h
    cases ct <;> simp only [mkRrSet, hz, ht] at h
    · split at h
      · cases h
      · cases h
        simp
    · cases h
      simp
  have hBack : ∀ rr : RrSet, rr.type_ = "ALIAS" →
      ∀ e ∈ convertRRSetToEndpoints rr, e.recordType = "CNAME" := by
    intro rr h e he
    simp only [convertRRSetToEndpoints, h, List.mem_singleton] at he
    subst he
    rfl
  exact ⟨hAlias, hBack, fun z ep rr hz ht h e he =>
    hBack rr (hAlias z .replace ep rr hz ht h) e he⟩

/-- Witness for C10: the apex CNAME endpoint for zone `example.com.` is
emitted as an ALIAS rrset and read back with record type CNAME. -/
theorem apex_cname_alias_roundtrip_witness :
    ((mkRrSet "example.com." .replace apexCnameEp).map (fun rr => rr.type_)
      = .ok "ALIAS") ∧
    ((mkRrSet "example.com." .replace apexCnameEp).map
        (fun rr => (convertRRSetToEndpoints rr).map (fun e => e.recordType))
      = .ok ["CNAME"]) := by
  have h := apex_cname_alias_roundtrip
  obtain ⟨rr, hrr⟩ : ∃ rr, mkRrSet "example.com." .replace apexCnameEp = .ok rr :=
    mkRrSet_ok (by decide)
  have hty := h.1 "example.com." .replace apexCnameEp rr (by decide) rfl hrr
  refine ⟨?_, ?_⟩
  · rw [hrr]
    simp [Except.map, hty]
  · rw [hrr]
    simp [Except.map, convertRRSetToEndpoints, hty]

/-! ### Claim C8: configuration errors fail at construction time -/

/-- C8: configuration errors fail at construction: `NewPDNSProvider`
rejects an empty API key and a requested dry-run, and
`NewIngressSource` rejects the combination of ingress class names with
an annotation filter mentioning the `kubernetes.io/ingress.class`
key. -/
theorem config_errors_fail_at_construction :
    (∀ cfg : PdnsConfigModel, cfg.apiKey = "" →
       ∃ e, newPDNSProvider cfg = .error e) ∧
    (∀ cfg : PdnsConfigModel, cfg.dryRun = true →
       ∃ e, newPDNSProvider cfg = .error e) ∧
    (∀ (tmplRes : Except String Unit) (l : List String) (af : String)
       (reqs : List Requirement) (syncRes : Except String Unit),
       af ≠ "" → (∃ r ∈ reqs, r.key = ingressClassAnnotKey) →
       ∃ e, newIngressSource tmplRes (some l) af (.ok reqs) syncRes = .error e) := by
  refine ⟨?_, ?_, ?_⟩
  · intro cfg h
    exact ⟨"missing API Key for PDNS. Specify using --pdns-api-key=",
      by simp [newPDNSProvider, h]⟩
  · intro cfg h
    by_cases hk : cfg.apiKey = ""
    · exact ⟨"missing API Key for PDNS. Specify using --pdns-api-key=",
        by simp [newPDNSProvider, hk]⟩
    · exact ⟨"PDNS Provider does not currently support dry-run",
        by simp [newPDNSProvider, hk, h]⟩
  · intro tmplRes l af reqs syncRes haf hkey
    cases tmplRes with
    | error e => exact ⟨e, rfl⟩
    | ok _ =>
      obtain ⟨r, hr, hrk⟩ := hkey
      have hany : reqs.any (fun r => r.key == ingressClassAnnotKey) = true :=
        List.any_eq_true.mpr ⟨r, hr, by simp [hrk]⟩
      exact ⟨"--ingress-class is mutually exclusive with the kubernetes.io/ingress.class annotation filter",
        by simp [newIngressSource, haf, hany]⟩

/-- Witness for C8 at concrete configurations: an empty API key, a
dry-run request, and an ingress-class conflict each produce a
construction error. -/
theorem config_errors_fail_at_construction_witness :
    (∃ e, newPDNSProvider { apiKey := "" } = .error e) ∧
    (∃ e, newPDNSProvider { apiKey := "secret", dryRun := true } = .error e) ∧
    (∃ e, newIngressSource (.ok ()) (some ["nginx"]) "kubernetes.io/ingress.class=nginx"
        (.ok [{ key := "kubernetes.io/ingress.class" }]) (.ok ()) = .error e) := by
  have h := config_errors_fail_at_construction
  exact ⟨h.1 _ rfl, h.2.1 _ rfl,
    h.2.2 (.ok ()) ["nginx"] "kubernetes.io/ingress.class=nginx"
      [{ key := "kubernetes.io/ingress.class" }] (.ok ()) (by decide)
      ⟨_, List.mem_singleton.mpr rfl, rfl⟩⟩

/-! ### Claim C6: soft errors for backend failures -/

lemma azureZonePages_soft {ps : List (Except String (List AzRecordSet))}
    {e : ProviderError} (h : azureZonePages ps = .error e) : ∃ m, e = .soft m := by
  induction ps with
  | nil => cases h
  | cons p rest ih =>
    cases p with
    | error m =>
      simp only [azureZonePages] at h
      cases h
      exact ⟨_, rfl⟩
    | ok rss =>
      simp only [azureZonePages] at h
      split at h
      · cases h
        exact ih (by assumption)
      · cases h

lemma azureRecords_soft {znf : Bool} {df : String → Bool}
    {pages : String → List (Except String (List AzRecordSet))}
    {zs : List String} {e : ProviderError}
    (h : azureRecords znf df pages zs = .error e) : ∃ m, e = .soft m := by
  induction zs with
  | nil => cases h
  | cons z rest ih =>
    simp only [azureRecords] at h
    split at h
    · cases h
      exact azureZonePages_soft (by assumption)
    · split at h
      · cases h
        exact ih (by assumption)
      · cases h

/-- C6: backend failures surface as soft errors: the PowerDNS
`ListZones` retries the underlying call three times with increasing
backoff (250, 500, 1000 ms) and wraps the final failure in a soft
error, and every error the Azure Private DNS `Records` operation
returns (a failing page fetch being its only error source) is a soft
error. -/
theorem backend_failures_are_soft :
    (∀ att : Nat → Except String (List PdnsZone),
       (∀ i, i < pdnsRetryLimit → ∃ m, att i = .error m) →
       (pdnsListZones att).calls = 3 ∧
       (pdnsListZones att).sleeps = [250, 500, 1000] ∧
       ∃ msg, (pdnsListZones att).result = .error (.soft msg)) ∧
    (∀ (znf : Bool) (df : String → Bool)
       (pages : String → List (Except String (List AzRecordSet)))
       (zs : List String) (e : ProviderError),
       azureRecords znf df pages zs = .error e → ∃ m, e = .soft m) := by
  refine ⟨?_, fun znf df pages zs e h => azureRecords_soft h⟩
  intro att h
  obtain ⟨m0, h0⟩ := h 0 (by decide)
  obtain ⟨m1, h1⟩ := h 1 (by decide)
  obtain ⟨m2, h2⟩ := h 2 (by decide)
  simp [pdnsListZones, pdnsRetryLimit, listZonesLoop, h0, h1, h2, pdnsRetryAfterTime]

/-- Witness for C6: an always-failing zone-list call is retried three
times with sleeps 250, 500, 1000 ms and ends in a soft error, and a
failing first record page yields a soft `Records` error. -/
theorem backend_failures_are_soft_witness :
    ((pdnsListZones (fun _ => .error "connection refused")).calls = 3 ∧
     (pdnsListZones (fun _ => .error "connection refused")).sleeps = [250, 500, 1000] ∧
     ∃ msg, (pdnsListZones (fun _ => .error "connection refused")).result
       = .error (.soft msg)) ∧
    (∃ m, (ProviderError.soft "failed to fetch dns records: timeout") = .soft m) := by
  have h := backend_failures_are_soft
  refine ⟨h.1 (fun _ => .error "connection refused") (fun i _ => ⟨_, rfl⟩), ?_⟩
  have hrec : azureRecords false (fun _ => true) (fun _ => [.error "timeout"])
      ["example.com"] = .error (.soft "failed to fetch dns records: timeout") := rfl
  exact h.2 false (fun _ => true) (fun _ => [.error "timeout"]) ["example.com"] _ hrec

/-! ### Claim C4: longest matching zone wins -/

lemma zoneApplyEndpoints_spec {z : String} {ct : PdnsChangeType}
    {eps rem : List Endpoint} {rrs : List RrSet}
    (h : zoneApplyEndpoints z ct eps = .ok (rrs, rem)) :
    (∀ rr ∈ rrs, ∃ ep, ep ∈ eps ∧ zoneMatch (ensureTrailingDot ep.dnsName) z = true ∧
      mkRrSet z ct ep = .ok rr) ∧
    (∀ e ∈ rem, e ∈ eps ∧ zoneMatch (ensureTrailingDot e.dnsName) z = false) := by
  induction eps generalizing rrs rem with
  | nil =>
    simp only [zoneApplyEndpoints] at h
    cases h
    exact ⟨by simp, by simp⟩
  | cons ep rest ih =>
    simp only [zoneApplyEndpoints] at h
    split at h
    · rename_i hm
      split at h
      · cases h
      · rename_i rr hmk
        split at h
        · cases h
        · rename_i p hrec
          cases h
          have spec := ih hrec
          constructor
          · intro r hr
            rcases List.mem_cons.mp hr with rfl | hr'
            · exact ⟨ep, by simp, hm, hmk⟩
            · obtain ⟨e', he', hz', hmk'⟩ := spec.1 r hr'
              exact ⟨e', by simp [he'], hz', hmk'⟩
          · intro e he
            obtain ⟨hmem, hnm⟩ := spec.2 e he
            exact ⟨by simp [hmem], hnm⟩
    · rename_i hm
      split at h
      · cases h
      · rename_i p hrec
        cases h
        have spec := ih hrec
        constructor
        · intro r hr
          obtain ⟨e', he', hz', hmk'⟩ := spec.1 r hr
          exact ⟨e', by simp [he'], hz', hmk'⟩
        · intro e he
          rcases List.mem_cons.mp he with rfl | he'
          · exact ⟨by simp, by simpa using hm⟩
          · obtain ⟨hmem, hnm⟩ := spec.2 e he'
            exact ⟨by simp [hmem], hnm⟩

lemma zonesApply_spec {ct : PdnsChangeType} {zones : List PdnsZone}
    {eps rem : List Endpoint} {zl : List PdnsZone}
    (h : zonesApply ct zones eps = .ok (zl, rem)) :
    ∀ z' ∈ zl, (∃ z0 ∈ zones, z'.name = z0.name) ∧
      ∀ rr ∈ z'.rrsets, ∃ ep, ep ∈ eps ∧
        zoneMatch (ensureTrailingDot ep.dnsName) z'.name = true ∧
        mkRrSet z'.name ct ep = .ok rr := by
  induction zones generalizing eps zl rem with
  | nil =>
    simp only [zonesApply] at h
    cases h
    simp
  | cons z zs ih =>
    simp only [zonesApply] at h
    split at h
    · cases h
    · rename_i rrs1 rem1 hza
      split at h
      · cases h
      · rename_i zl1 rem2 hrec
        cases h
        intro z' hz'
        have hsub : ∀ e ∈ rem1, e ∈ eps := fun e he => ((zoneApplyEndpoints_spec hza).2 e he).1
        split at hz'
        · have spec := ih hrec z' hz'
          refine ⟨?_, fun rr hrr => ?_⟩
          · obtain ⟨z0, hz0, hn⟩ := spec.1
            exact ⟨z0, by simp [hz0], hn⟩
          · obtain ⟨ep, hep, hzm, hmk⟩ := spec.2 rr hrr
            exact ⟨ep, hsub ep hep, hzm, hmk⟩
        · rcases List.mem_cons.mp hz' with rfl | hz''
          · refine ⟨⟨z, by simp, rfl⟩, fun rr hrr => ?_⟩
            obtain ⟨ep, hep, hzm, hmk⟩ := (zoneApplyEndpoints_spec hza).1 rr hrr
            exact ⟨ep, hep, hzm, hmk⟩
          · have spec := ih hrec z' hz''
            refine ⟨?_, fun rr hrr => ?_⟩
            · obtain ⟨z0, hz0, hn⟩ := spec.1
              exact ⟨z0, by simp [hz0], hn⟩
            · obtain ⟨ep, hep, hzm, hmk⟩ := spec.2 rr hrr
              exact ⟨ep, hsub ep hep, hzm, hmk⟩

lemma zonesApply_maximal {ct : PdnsChangeType} {zones : List PdnsZone}
    {eps rem : List Endpoint} {zl : List PdnsZone}
    (hs : zones.Sorted zoneLenGe)
    (h : zonesApply ct zones eps = .ok (zl, rem)) :
    ∀ z' ∈ zl, ∀ rr ∈ z'.rrsets, ∀ w ∈ zones,
      z'.name.length < w.name.length → zoneMatch rr.name w.name = false := by
  induction zones generalizing eps zl rem with
  | nil =>
    simp only [zonesApply] at h
    cases h
    simp
  | cons z zs ih =>
    obtain ⟨hz_all, hs'⟩ := List.sorted_cons.mp hs
    simp only [zonesApply] at h
    split at h
    · cases h
    · rename_i rrs1 rem1 hza
      split at h
      · cases h
      · rename_i zl1 rem2 hrec
        cases h
        intro z' hz' rr hrr w hw hlen
        have fromTail : z' ∈ zl1 → zoneMatch rr.name w.name = false := by
          intro hz''
          rcases List.mem_cons.mp hw with rfl | hw'
          · obtain ⟨ep, hep, _, hmk⟩ := (zonesApply_spec hrec z' hz'').2 rr hrr
            have hnm := ((zoneApplyEndpoints_spec hza).2 ep hep).2
            rw [mkRrSet_name hmk]
            exact hnm
          · exact ih hs' hrec z' hz'' rr hrr w hw' hlen
        split at hz'
        · exact fromTail hz'
        · rcases List.mem_cons.mp hz' with rfl | hz''
          · rcases List.mem_cons.mp hw with rfl | hw'
            · simp at hlen
            · exact absurd hlen (by simpa [zoneLenGe] using hz_all w hw')
          · exact fromTail hz''

/-- C4: an endpoint is assigned to the zone whose name is the longest
suffix match of its DNS name, the boundary being a label separator
(equality, or a suffix preceded by "."): every rrset a zone of the
converted output carries matches that zone's name, and no zone passing
the domain filter whose name also matches is longer. -/
theorem pdns_longest_zone_wins
    (zones : List PdnsZone) (df : DomainFilterPred) (eps : List Endpoint)
    (ct : PdnsChangeType) (zl : List PdnsZone)
    (h : convertEndpointsToZones (.ok zones) df eps ct = .ok zl) :
    ∀ z' ∈ zl, ∀ rr ∈ z'.rrsets,
      zoneMatch rr.name z'.name = true ∧
      ∀ w ∈ (partitionZones df zones).1, zoneMatch rr.name w.name = true →
        w.name.length ≤ z'.name.length := by
  simp only [convertEndpointsToZones] at h
  split at h
  · cases h
  · rename_i zoneList rem1 hza
    cases h
    intro z' hz' rr hrr
    have hsorted : (List.insertionSort zoneLenGe (partitionZones df zones).1).Sorted zoneLenGe :=
      List.sorted_insertionSort _ _
    obtain ⟨ep, _, hzm, hmk⟩ := (zonesApply_spec hza z' hz').2 rr hrr
    refine ⟨by rw [mkRrSet_name hmk]; exact hzm, ?_⟩
    intro w hw hmatch
    by_contra hlt
    push_neg at hlt
    have hw' : w ∈ List.insertionSort zoneLenGe (partitionZones df zones).1 :=
      ((List.perm_insertionSort zoneLenGe _).mem_iff).mpr hw
    have := zonesApply_maximal hsorted hza z' hz' rr hrr w hw' hlt
    rw [hmatch] at this
    cases this

/-- Witness for C4: with zones `example.com.` and `zone1.example.com.`,
the endpoint `foo.zone1.example.com` lands in `zone1.example.com.`
(which matches it) and the shorter matching zone loses. -/
theorem pdns_longest_zone_wins_witness :
    zoneMatch "foo.zone1.example.com." "zone1.example.com." = true ∧
    ("example.com." : String).length ≤ ("zone1.example.com." : String).length := by
  have h := pdns_longest_zone_wins
    [{ id := "z1", name := "example.com." }, { id := "z2", name := "zone1.example.com." }]
    { configured := false, matchName := fun _ => true }
    [{ dnsName := "foo.zone1.example.com", recordType := "A", targets := ["1.1.1.1"] }]
    .replace
    [{ id := "z2", name := "zone1.example.com.",
       rrsets := [{ name := "foo.zone1.example.com.", type_ := "A", ttl := some 300,
                    records := [{ content := "1.1.1.1" }], changetype := "REPLACE" }] }]
    rfl
  have h1 := h
    { id := "z2", name := "zone1.example.com.",
      rrsets := [{ name := "foo.zone1.example.com.", type_ := "A", ttl := some 300,
                   records := [{ content := "1.1.1.1" }], changetype := "REPLACE" }] }
    (by decide)
    { name := "foo.zone1.example.com.", type_ := "A", ttl := some 300,
      records := [{ content := "1.1.1.1" }], changetype := "REPLACE" }
    (by decide)
  exact ⟨h1.1, h1.2 { id := "z1", name := "example.com." } (by decide) (by decide)⟩

/-! ### Claim C7: unroutable endpoints are dropped, not fatal -/

lemma partitionZones_sub {df : DomainFilterPred} {zones : List PdnsZone} {z : PdnsZone}
    (h : z ∈ (partitionZones df zones).1) : z ∈ zones := by
  simp only [partitionZones] at h
  split at h
  · exact (List.mem_filter.mp h).1
  · exact h

lemma zoneApplyEndpoints_total {z : String} {ct : PdnsChangeType} {eps : List Endpoint}
    (h : ∀ ep ∈ eps, ep.recordTTL ≤ maxInt32) :
    ∃ rrs rem, zoneApplyEndpoints z ct eps = .ok (rrs, rem) := by
  induction eps with
  | nil => exact ⟨[], [], rfl⟩
  | cons ep rest ih =>
    obtain ⟨rrs, rem, hrec⟩ := ih (fun e he => h e (by simp [he]))
    obtain ⟨rr, hmk⟩ := @mkRrSet_ok z ct ep (h ep (by simp))
    cases hzm : zoneMatch (ensureTrailingDot ep.dnsName) z <;>
      simp [zoneApplyEndpoints, hzm, hmk, hrec]

lemma zonesApply_total {ct : PdnsChangeType} {zones : List PdnsZone} {eps : List Endpoint}
    (h : ∀ ep ∈ eps, ep.recordTTL ≤ maxInt32) :
    ∃ zl rem, zonesApply ct zones eps = .ok (zl, rem) := by
  induction zones generalizing eps with
  | nil => exact ⟨[], eps, rfl⟩
  | cons z zs ih =>
    obtain ⟨rrs, rem1, hza⟩ := @zoneApplyEndpoints_total z.name ct eps h
    have hrem : ∀ ep ∈ rem1, ep.recordTTL ≤ maxInt32 :=
      fun e he => h e ((zoneApplyEndpoints_spec hza).2 e he).1
    obtain ⟨zl, rem2, hrec⟩ := ih hrem
    refine ⟨if rrs.isEmpty then zl else { z with rrsets := rrs } :: zl, rem2, ?_⟩
    simp only [zonesApply, hza, hrec]

lemma assocAppend_mem {α : Type} {m : List (String × List α)} {k : String} {a : α}
    {d : String} {g : List α} (h : (d, g) ∈ assocAppend m k a) :
    ∀ b ∈ g, (∃ g', (d, g') ∈ m ∧ b ∈ g') ∨ b = a := by
  induction m with
  | nil =>
    simp only [assocAppend, List.mem_singleton, Prod.mk.injEq] at h
    intro b hb
    rw [h.2] at hb
    simp at hb
    exact Or.inr hb
  | cons p rest ih =>
    simp only [assocAppend] at h
    split at h
    · rcases List.mem_cons.mp h with heq | htail
      · intro b hb
        cases heq
        rcases List.mem_append.mp hb with hv | ha
        · exact Or.inl ⟨p.2, by simp, hv⟩
        · exact Or.inr (by simpa using ha)
      · intro b hb
        exact Or.inl ⟨g, by simp [htail], hb⟩
    · rcases List.mem_cons.mp h with heq | htail
      · intro b hb
        cases heq
        exact Or.inl ⟨p.2, by simp, hb⟩
      · intro b hb
        rcases ih htail b hb with ⟨g', hg', hb'⟩ | hba
        · exact Or.inl ⟨g', by simp [hg'], hb'⟩
        · exact Or.inr hba

lemma foldl_azureMapChange_mem {zs : List String} {l : List Endpoint}
    {m : List (String × List Endpoint)} {d : String} {g : List Endpoint}
    (h : (d, g) ∈ l.foldl (azureMapChange zs) m) :
    ∀ b ∈ g, (∃ g', (d, g') ∈ m ∧ b ∈ g') ∨
      (b ∈ l ∧ findZone zs b.dnsName ≠ "") := by
  induction l generalizing m with
  | nil =>
    intro b hb
    exact Or.inl ⟨g, by simpa using h, hb⟩
  | cons ep rest ih =>
    intro b hb
    rcases ih (m := azureMapChange zs m ep) (by simpa using h) b hb with hm | ⟨hmem, hnz⟩
    · obtain ⟨g', hg', hb'⟩ := hm
      simp only [azureMapChange] at hg'
      split at hg'
      · exact Or.inl ⟨g', hg', hb'⟩
      · rename_i hzero
        rcases assocAppend_mem hg' b hb' with ⟨g'', hg'', hb''⟩ | hba
        · exact Or.inl ⟨g'', hg'', hb''⟩
        · refine Or.inr ⟨by simp [hba], ?_⟩
          rw [hba]
          simpa using hzero
    · exact Or.inr ⟨by simp [hmem], hnz⟩

/-- C7: an endpoint that matches no known zone is dropped while the
batch still succeeds: the PowerDNS conversion returns its zone list
with no error even when endpoints are left unmatched (and no rrset is
ever emitted for an unmatched name), and the Azure Private DNS
`mapChanges` ignores changes whose name finds no zone while
`ApplyChanges` still returns success. -/
theorem unroutable_endpoints_dropped :
    (∀ (zones : List PdnsZone) (df : DomainFilterPred) (eps : List Endpoint)
       (ct : PdnsChangeType), (∀ ep ∈ eps, ep.recordTTL ≤ maxInt32) →
       ∃ zl, convertEndpointsToZones (.ok zones) df eps ct = .ok zl) ∧
    (∀ (zones : List PdnsZone) (df : DomainFilterPred) (eps : List Endpoint)
       (ct : PdnsChangeType) (zl : List PdnsZone) (d : String),
       convertEndpointsToZones (.ok zones) df eps ct = .ok zl →
       (∀ z ∈ zones, zoneMatch (ensureTrailingDot d) z.name = false) →
       ∀ z' ∈ zl, ∀ rr ∈ z'.rrsets, rr.name ≠ ensureTrailingDot d) ∧
    (∀ (zs : List String) (dryRun : Bool) (dfM : String → Bool)
       (pm : String → Except String (Int × String)) (dflt : Int) (changes : Changes),
       (∃ calls, azureApplyChanges (.ok zs) dryRun dfM pm dflt changes = .ok calls) ∧
       ∀ ep : Endpoint, findZone zs ep.dnsName = "" →
         (∀ d g, (d, g) ∈ (azureMapChanges zs changes).1 → ep ∉ g) ∧
         (∀ d g, (d, g) ∈ (azureMapChanges zs changes).2 → ep ∉ g)) := by
  refine ⟨?_, ?_, ?_⟩
  · intro zones df eps ct h
    have hall : ∀ ep ∈ List.insertionSort epLe eps, ep.recordTTL ≤ maxInt32 :=
      fun e he => h e (((List.perm_insertionSort epLe eps).mem_iff).mp he)
    obtain ⟨zl, rem, hza⟩ := @zonesApply_total ct
      (List.insertionSort zoneLenGe (partitionZones df zones).1)
      (List.insertionSort epLe eps) hall
    exact ⟨zl, by simp [convertEndpointsToZones, hza]⟩
  · intro zones df eps ct zl d h hnom
    simp only [convertEndpointsToZones] at h
    split at h
    · cases h
    · rename_i zoneList rem1 hza
      cases h
      intro z' hz' rr hrr heq
      have spec := zonesApply_spec hza z' hz'
      obtain ⟨z0, hz0, hname⟩ := spec.1
      obtain ⟨ep, _, hzm, hmk⟩ := spec.2 rr hrr
      have hz0' : z0 ∈ zones :=
        partitionZones_sub (((List.perm_insertionSort zoneLenGe _).mem_iff).mp hz0)
      have hde : ensureTrailingDot d = ensureTrailingDot ep.dnsName := by
        rw [← heq, mkRrSet_name hmk]
      have : zoneMatch (ensureTrailingDot d) z0.name = true := by
        rw [hde, ← hname]
        exact hzm
      rw [hnom z0 hz0'] at this
      cases this
  · intro zs dryRun dfM pm dflt changes
    refine ⟨⟨_, rfl⟩, fun ep hep => ⟨?_, ?_⟩⟩
    · intro d g hdg hmem
      rcases foldl_azureMapChange_mem hdg ep hmem with ⟨g', hg', _⟩ | ⟨_, hnz⟩
      · simp at hg'
      · exact hnz hep
    · intro d g hdg hmem
      rcases foldl_azureMapChange_mem hdg ep hmem with ⟨g', hg', _⟩ | ⟨_, hnz⟩
      · simp at hg'
      · exact hnz hep

/-- Witness for C7: converting a matched and an unmatched endpoint
against zone `example.com.` succeeds, the emitted rrset is not the
unmatched name, and the Azure change map for zone `example.com` keeps
the matched delete while dropping the unmatched one. -/
theorem unroutable_endpoints_dropped_witness :
    (∃ zl, convertEndpointsToZones (.ok [{ id := "z1", name := "example.com." }])
        { configured := false, matchName := fun _ => true }
        [{ dnsName := "www.example.com", recordType := "A", targets := ["1.1.1.1"] },
         { dnsName := "a.nomatch.org", recordType := "A", targets := ["2.2.2.2"] }]
        .replace = .ok zl) ∧
    ("www.example.com." : String) ≠ ensureTrailingDot "a.nomatch.org" ∧
    (∃ calls, azureApplyChanges (.ok ["example.com"]) false (fun _ => true)
        (fun _ => .error "no mx") 300
        { delete := [{ dnsName := "www.example.com", recordType := "A",
                       targets := ["1.1.1.1"] },
                     { dnsName := "a.nomatch.org", recordType := "A",
                       targets := ["2.2.2.2"] }] } = .ok calls) ∧
    ({ dnsName := "a.nomatch.org", recordType := "A", targets := ["2.2.2.2"] } : Endpoint)
      ∉ [({ dnsName := "www.example.com", recordType := "A",
            targets := ["1.1.1.1"] } : Endpoint)] := by
  have h := unroutable_endpoints_dropped
  refine ⟨?_, ?_, ?_, ?_⟩
  · exact h.1 [{ id := "z1", name := "example.com." }]
      { configured := false, matchName := fun _ => true }
      [{ dnsName := "www.example.com", recordType := "A", targets := ["1.1.1.1"] },
       { dnsName := "a.nomatch.org", recordType := "A", targets := ["2.2.2.2"] }]
      .replace (by decide)
  · exact h.2.1 [{ id := "z1", name := "example.com." }]
      { configured := false, matchName := fun _ => true }
      [{ dnsName := "www.example.com", recordType := "A", targets := ["1.1.1.1"] },
       { dnsName := "a.nomatch.org", recordType := "A", targets := ["2.2.2.2"] }]
      .replace
      [{ id := "z1", name := "example.com.",
         rrsets := [{ name := "www.example.com.", type_ := "A", ttl := some 300,
                      records := [{ content := "1.1.1.1" }], changetype := "REPLACE" }] }]
      "a.nomatch.org" (by decide) (by decide)
      { id := "z1", name := "example.com.",
        rrsets := [{ name := "www.example.com.", type_ := "A", ttl := some 300,
                     records := [{ content := "1.1.1.1" }], changetype := "REPLACE" }] }
      (by decide)
      { name := "www.example.com.", type_ := "A", ttl := some 300,
        records := [{ content := "1.1.1.1" }], changetype := "REPLACE" }
      (by decide)
  · exact (h.2.2 ["example.com"] false (fun _ => true) (fun _ => .error "no mx") 300
      { delete := [{ dnsName := "www.example.com", recordType := "A",
                     targets := ["1.1.1.1"] },
                   { dnsName := "a.nomatch.org", recordType := "A",
                     targets := ["2.2.2.2"] }] }).1
  · exact ((h.2.2 ["example.com"] false (fun _ => true) (fun _ => .error "no mx") 300
      { delete := [{ dnsName := "www.example.com", recordType := "A",
                     targets := ["1.1.1.1"] },
                   { dnsName := "a.nomatch.org", recordType := "A",
                     targets := ["2.2.2.2"] }] }).2
      { dnsName := "a.nomatch.org", recordType := "A", targets := ["2.2.2.2"] }
      (by decide)).1 "example.com"
      [{ dnsName := "www.example.com", recordType := "A", targets := ["1.1.1.1"] }]
      (by decide)

/-! ### Claim C2: delete/create ordering -/

lemma azureDeleteZone_all {dryRun : Bool} {dfM : String → Bool} {zone : String}
    {eps : List Endpoint} : ∀ c ∈ azureDeleteZone dryRun dfM zone eps, azIsDel c = true := by
  induction eps with
  | nil => simp [azureDeleteZone]
  | cons ep rest ih =>
    intro c hc
    simp only [azureDeleteZone] at hc
    split at hc
    · exact ih c hc
    · split at hc
      · exact ih c hc
      · rcases List.mem_cons.mp hc with rfl | hc'
        · rfl
        · exact ih c hc'

lemma azureDeleteRecords_all {dryRun : Bool} {dfM : String → Bool}
    {m : List (String × List Endpoint)} :
    ∀ c ∈ azureDeleteRecords dryRun dfM m, azIsDel c = true := by
  induction m with
  | nil => simp [azureDeleteRecords]
  | cons p rest ih =>
    intro c hc
    simp only [azureDeleteRecords] at hc
    rcases List.mem_append.mp hc with hz | hr
    · exact azureDeleteZone_all c hz
    · exact ih c hr

lemma azureUpdateZone_all {dryRun : Bool} {dfM : String → Bool}
    {pm : String → Except String (Int × String)} {dfltTTL : Int} {zone : String}
    {eps : List Endpoint} :
    ∀ c ∈ azureUpdateZone dryRun dfM pm dfltTTL zone eps, azIsUpd c = true := by
  induction eps with
  | nil => simp [azureUpdateZone]
  | cons ep rest ih =>
    intro c hc
    simp only [azureUpdateZone] at hc
    split at hc
    · exact ih c hc
    · split at hc
      · exact ih c hc
      · split at hc
        · exact ih c hc
        · rcases List.mem_cons.mp hc with rfl | hc'
          · rfl
          · exact ih c hc'

lemma azureUpdateRecords_all {dryRun : Bool} {dfM : String → Bool}
    {pm : String → Except String (Int × String)} {dfltTTL : Int}
    {m : List (String × List Endpoint)} :
    ∀ c ∈ azureUpdateRecords dryRun dfM pm dfltTTL m, azIsUpd c = true := by
  induction m with
  | nil => simp [azureUpdateRecords]
  | cons p rest ih =>
    intro c hc
    simp only [azureUpdateRecords] at hc
    rcases List.mem_append.mp hc with hz | hr
    · exact azureUpdateZone_all c hz
    · exact ih c hr

lemma patchZonesLoop_mem {pr : String → PdnsZone → Option ProviderError}
    {zl : List PdnsZone} : ∀ c ∈ (patchZonesLoop pr zl).1, ∃ z ∈ zl, c = .patchZone z.id z := by
  induction zl with
  | nil => simp [patchZonesLoop]
  | cons z zs ih =>
    intro c hc
    simp only [patchZonesLoop] at hc
    split at hc
    · rcases List.mem_singleton.mp hc with rfl
      exact ⟨z, by simp, rfl⟩
    · rcases List.mem_cons.mp hc with rfl | hc'
      · exact ⟨z, by simp, rfl⟩
      · obtain ⟨z', hz', rfl⟩ := ih c hc'
        exact ⟨z', by simp [hz'], rfl⟩

lemma convertEndpointsToZones_ct {lz : Except ProviderError (List PdnsZone)}
    {df : DomainFilterPred} {eps : List Endpoint} {ct : PdnsChangeType}
    {zl : List PdnsZone} (h : convertEndpointsToZones lz df eps ct = .ok zl) :
    ∀ z ∈ zl, ∀ rr ∈ z.rrsets, rr.changetype = ct.str := by
  cases lz with
  | error e => cases h
  | ok zones =>
    simp only [convertEndpointsToZones] at h
    split at h
    · cases h
    · rename_i zoneList rem1 hza
      cases h
      intro z hz rr hrr
      obtain ⟨ep, _, _, hmk⟩ := (zonesApply_spec hza z hz).2 rr hrr
      exact mkRrSet_changetype hmk

lemma mutateRecords_all {cl : PdnsClientModel} {eps : List Endpoint}
    {ct : PdnsChangeType} :
    ∀ c ∈ (mutateRecords cl eps ct).1, callAllCt ct.str c = true := by
  intro c hc
  simp only [mutateRecords] at hc
  split at hc
  · cases hc
  · rename_i zl hconv
    obtain ⟨z, hz, rfl⟩ := patchZonesLoop_mem c hc
    simp only [callAllCt]
    exact List.all_eq_true.mpr fun rr hrr => by
      simp [convertEndpointsToZones_ct hconv z hz rr hrr]

/-- C2 counterexample: with one zone and successful patches, a Changes
value that deletes the A record and creates a CNAME record at the same
name makes the PowerDNS `ApplyChanges` issue the REPLACE (create) patch
for that name before the DELETE patch — the Delete does not precede
the Create of the same name. -/
theorem pdns_create_issued_before_delete_cex :
    (pdnsApplyChanges pdnsCexClient pdnsCexChanges).1.map patchChangetypes
      = [[("www.example.com.", "REPLACE")], [("www.example.com.", "DELETE")]] ∧
    (pdnsApplyChanges pdnsCexClient pdnsCexChanges).2 = none := by decide

/-- C2 amended: the Azure Private DNS `ApplyChanges` does issue all
mapped deletions before any creations/updates; the PowerDNS
`ApplyChanges` instead issues all REPLACE patches (Creates, then
UpdateNews) before any DELETE patch, so a Delete of a name never
precedes a Create of the same name there. -/
theorem delete_create_ordering_amended :
    (∀ (zs : List String) (dryRun : Bool) (dfM : String → Bool)
       (pm : String → Except String (Int × String)) (dflt : Int) (changes : Changes),
       ∃ dels upds,
         azureApplyChanges (.ok zs) dryRun dfM pm dflt changes = .ok (dels ++ upds) ∧
         (∀ c ∈ dels, azIsDel c = true) ∧ (∀ c ∈ upds, azIsUpd c = true)) ∧
    (∀ (cl : PdnsClientModel) (changes : Changes),
       ∃ reps dels,
         (pdnsApplyChanges cl changes).1 = reps ++ dels ∧
         (∀ c ∈ reps, callAllCt "REPLACE" c = true) ∧
         (∀ c ∈ dels, callAllCt "DELETE" c = true)) := by
  constructor
  · intro zs dryRun dfM pm dflt changes
    exact ⟨_, _, rfl, azureDeleteRecords_all, azureUpdateRecords_all⟩
  · intro cl changes
    have h1 : ∀ c ∈ (if changes.create.isEmpty then (([] : List PdnsCall), (none : Option ProviderError))
        else mutateRecords cl changes.create .replace).1, callAllCt "REPLACE" c = true := by
      split
      · simp
      · exact mutateRecords_all
    have h2 : ∀ c ∈ (if changes.updateNew.isEmpty then (([] : List PdnsCall), (none : Option ProviderError))
        else mutateRecords cl changes.updateNew .replace).1, callAllCt "REPLACE" c = true := by
      split
      · simp
      · exact mutateRecords_all
    have h3 : ∀ c ∈ (if changes.delete.isEmpty then (([] : List PdnsCall), (none : Option ProviderError))
        else mutateRecords cl changes.delete .delete).1, callAllCt "DELETE" c = true := by
      split
      · simp
      · exact mutateRecords_all
    simp only [pdnsApplyChanges]
    split
    · exact ⟨_, [], (List.append_nil _).symm, h1, by simp⟩
    · split
      · refine ⟨_, [], (List.append_nil _).symm, ?_, by simp⟩
        intro c hc
        rcases List.mem_append.mp hc with hc' | hc'
        · exact h1 c hc'
        · exact h2 c hc'
      · refine ⟨_, _, rfl, ?_, h3⟩
        intro c hc
        rcases List.mem_append.mp hc with hc' | hc'
        · exact h1 c hc'
        · exact h2 c hc'

/-! ### Claim C1: dry run is a no-op on the backend -/

lemma nextPfx_calls (st : CoreSt) : (nextPfx st).2.calls = st.calls := by
  cases h : st.pfxSupply <;> simp [nextPfx, h]

lemma coreSvcLoop_calls {pfx : String} {ep : EpRef} {dn : String} :
    ∀ (ts : List String) (st : CoreSt),
      ((coreSvcLoop pfx ep dn ts st).2).calls = st.calls := by
  intro ts
  induction ts with
  | nil => intro st; rfl
  | cons t ts ih =>
    intro st
    simp only [coreSvcLoop]
    rw [ih]
    split
    · exact nextPfx_calls st
    · rfl

lemma coreCleanupLabels_dry {pfx dn : String} {delE : String → Option String}
    {ep : EpRef} : ∀ (labels : List (String × String)) (st : CoreSt),
      coreCleanupLabels pfx dn true delE ep labels st = (none, st) := by
  intro labels
  induction labels with
  | nil => intro st; rfl
  | cons p rest ih =>
    intro st
    simp only [coreCleanupLabels]
    split
    · exact ih st
    · split
      · exact ih st
      · exact ih st

lemma coreCSFE_dry {pfx : String} {delE : String → Option String} {dn : String}
    {ep : EpRef} {st : CoreSt} :
    ∃ svcs st', coreCreateServicesForEndpoint pfx true delE dn ep st = (none, svcs, st') ∧
      st'.calls = st.calls := by
  refine ⟨(coreSvcLoop pfx ep dn ep.targets st).1, (coreSvcLoop pfx ep dn ep.targets st).2, ?_, ?_⟩
  · simp [coreCreateServicesForEndpoint, coreCleanupLabels_dry]
  · exact coreSvcLoop_calls ep.targets st

lemma coreGroupSvcs_dry {pfx : String} {delE : String → Option String} {dn : String} :
    ∀ (group : List EpRef) (st : CoreSt),
      ∃ svcs st', coreGroupSvcs pfx true delE dn group st = (none, svcs, st') ∧
        st'.calls = st.calls := by
  intro group
  induction group with
  | nil => intro st; exact ⟨[], st, rfl, rfl⟩
  | cons ep rest ih =>
    intro st
    simp only [coreGroupSvcs]
    split
    · exact ih st
    · obtain ⟨svcs0, st0, heq0, hc0⟩ := @coreCSFE_dry pfx delE dn ep st
      rw [heq0]
      obtain ⟨svcs1, st1, heq1, hc1⟩ := ih st0
      simp only [heq1]
      exact ⟨svcs0 ++ svcs1, st1, rfl, hc1.trans hc0⟩

lemma coreUpdateTXTLoop_calls {pfx dn : String} :
    ∀ (group : List EpRef) (services : List CoreSvc) (index : Nat) (st : CoreSt),
      ((coreUpdateTXTLoop pfx dn group services index st).2.2).calls = st.calls := by
  intro group
  induction group with
  | nil => intro services index st; rfl
  | cons ep rest ih =>
    intro services index st
    simp only [coreUpdateTXTLoop]
    split
    · exact ih services index st
    · rw [ih]
      split
      · split
        · exact nextPfx_calls st
        · rfl
      · rfl

lemma coreUpdateTXT_calls {pfx dn : String} {group : List EpRef}
    {services : List CoreSvc} {st : CoreSt} :
    ((coreUpdateTXT pfx dn group services st).2).calls = st.calls := by
  simp only [coreUpdateTXT]
  exact coreUpdateTXTLoop_calls group services 0 st

lemma coreSaveLoop_dry {saveE : CoreSvc → Option String} :
    ∀ (svcs : List CoreSvc) (st : CoreSt), coreSaveLoop true saveE svcs st = (none, st) := by
  intro svcs
  induction svcs with
  | nil => intro st; rfl
  | cons svc rest ih => intro st; simpa [coreSaveLoop] using ih st

lemma coreApplyGroup_dry {pfx : String} {saveE : CoreSvc → Option String}
    {delE : String → Option String} {dn : String} {group : List EpRef} {st : CoreSt} :
    ∃ st', coreApplyGroup pfx true saveE delE dn group st = (none, st') ∧
      st'.calls = st.calls := by
  obtain ⟨svcs0, st0, heq0, hc0⟩ := @coreGroupSvcs_dry pfx delE dn group st
  refine ⟨(coreUpdateTXT pfx dn group svcs0 st0).2, ?_, ?_⟩
  · simp [coreApplyGroup, heq0, coreSaveLoop_dry]
  · exact (@coreUpdateTXT_calls pfx dn group svcs0 st0).trans hc0

lemma coreApplyGroups_dry {pfx : String} {dfM : String → Bool}
    {saveE : CoreSvc → Option String} {delE : String → Option String} :
    ∀ (gs : List (String × List EpRef)) (st : CoreSt),
      ∃ st', coreApplyGroups pfx true dfM saveE delE gs st = (none, st') ∧
        st'.calls = st.calls := by
  intro gs
  induction gs with
  | nil => intro st; exact ⟨st, rfl, rfl⟩
  | cons g rest ih =>
    intro st
    simp only [coreApplyGroups]
    split
    · exact ih st
    · obtain ⟨st0, heq0, hc0⟩ := @coreApplyGroup_dry pfx saveE delE g.1 g.2 st
      rw [heq0]
      obtain ⟨st1, heq1, hc1⟩ := ih st0
      simp only [heq1]
      exact ⟨st1, rfl, hc1.trans hc0⟩

lemma coreDeleteEndpoints_dry {pfx : String} {delE : String → Option String} :
    ∀ (eps : List EpRef) (st : CoreSt),
      coreDeleteEndpoints pfx true delE eps st = (none, st) := by
  intro eps
  induction eps with
  | nil => intro st; rfl
  | cons ep rest ih => intro st; simpa [coreDeleteEndpoints] using ih st

lemma azureDeleteZone_dry {dfM : String → Bool} {zone : String} :
    ∀ eps : List Endpoint, azureDeleteZone true dfM zone eps = [] := by
  intro eps
  induction eps with
  | nil => rfl
  | cons ep rest ih => simp [azureDeleteZone, ih]

lemma azureDeleteRecords_dry {dfM : String → Bool} :
    ∀ m : List (String × List Endpoint), azureDeleteRecords true dfM m = [] := by
  intro m
  induction m with
  | nil => rfl
  | cons p rest ih => simp [azureDeleteRecords, azureDeleteZone_dry, ih]

lemma azureUpdateZone_dry {dfM : String → Bool}
    {pm : String → Except String (Int × String)} {dfltTTL : Int} {zone : String} :
    ∀ eps : List Endpoint, azureUpdateZone true dfM pm dfltTTL zone eps = [] := by
  intro eps
  induction eps with
  | nil => rfl
  | cons ep rest ih => simp [azureUpdateZone, ih]

lemma azureUpdateRecords_dry {dfM : String → Bool}
    {pm : String → Except String (Int × String)} {dfltTTL : Int} :
    ∀ m : List (String × List Endpoint), azureUpdateRecords true dfM pm dfltTTL m = [] := by
  intro m
  induction m with
  | nil => rfl
  | cons p rest ih => simp [azureUpdateRecords, azureUpdateZone_dry, ih]

/-- C1: with dryRun=true, `ApplyChanges` performs no mutating backend
call and returns nil error for any Changes input: the CoreDNS provider
issues no `SaveService`/`DeleteService` call (the trace of etcd calls
is unchanged) and succeeds, for every client behaviour, and the Azure
Private DNS provider, its zones fetched, issues no
`Delete`/`CreateOrUpdate` call and succeeds. -/
theorem dry_run_no_mutations :
    (∀ (pfx : String) (dfM : String → Bool) (saveE : CoreSvc → Option String)
       (delE : String → Option String) (changes : CoreChanges) (st : CoreSt),
       (coreApplyChanges pfx true dfM saveE delE changes st).1 = none ∧
       ((coreApplyChanges pfx true dfM saveE delE changes st).2).calls = st.calls) ∧
    (∀ (zs : List String) (dfM : String → Bool)
       (pm : String → Except String (Int × String)) (dflt : Int) (changes : Changes),
       azureApplyChanges (.ok zs) true dfM pm dflt changes = .ok []) := by
  constructor
  · intro pfx dfM saveE delE changes st
    obtain ⟨st0, heq0, hc0⟩ := @coreApplyGroups_dry pfx dfM saveE delE
      (coreGroupEndpoints changes) st
    have : coreApplyChanges pfx true dfM saveE delE changes st = (none, st0) := by
      simp [coreApplyChanges, heq0, coreDeleteEndpoints_dry]
    rw [this]
    exact ⟨rfl, hc0⟩
  · intro zs dfM pm dflt changes
    simp [azureApplyChanges, azureDeleteRecords_dry, azureUpdateRecords_dry]

/-! ### Claim C5: update label inheritance -/

lemma assocAppend_self {α : Type} (m : List (String × List α)) (k : String) (a : α) :
    ∃ g, (k, g) ∈ assocAppend m k a ∧ a ∈ g := by
  induction m with
  | nil => exact ⟨[a], by simp [assocAppend], by simp⟩
  | cons p rest ih =>
    simp only [assocAppend]
    split
    · rename_i hk
      have : p.1 = k := by simpa using hk
      exact ⟨p.2 ++ [a], by simp [this], by simp⟩
    · obtain ⟨g, hg, ha⟩ := ih
      exact ⟨g, by simp [hg], ha⟩

lemma assocAppend_keep {α : Type} {m : List (String × List α)} {d : String}
    {g : List α} {b : α} (h : (d, g) ∈ m) (hb : b ∈ g) (k : String) (a : α) :
    ∃ g', (d, g') ∈ assocAppend m k a ∧ b ∈ g' := by
  induction m with
  | nil => cases h
  | cons p rest ih =>
    simp only [assocAppend]
    rcases List.mem_cons.mp h with heq | htail
    · split
      · rename_i hk
        have hp : p.1 = k := by simpa using hk
        have hd : d = k := by rw [← hp, ← heq]
        have hgp : g = p.2 := by rw [← heq]
        exact ⟨p.2 ++ [a], by simp [hd, hp], by simp [← hgp, hb]⟩
      · exact ⟨g, by simp [heq.symm], hb⟩
    · split
      · exact ⟨g, by simp [htail], hb⟩
      · obtain ⟨g', hg', hb'⟩ := ih htail
        exact ⟨g', by simp [hg'], hb'⟩

lemma foldl_assocAppend_keep {α β : Type} (key : β → String) (val : β → α) :
    ∀ (l : List β) {m : List (String × List α)} {d : String} {g : List α} {b : α},
      (d, g) ∈ m → b ∈ g →
      ∃ g', (d, g') ∈ l.foldl (fun m p => assocAppend m (key p) (val p)) m ∧ b ∈ g' := by
  intro l
  induction l with
  | nil => intro m d g b h hb; exact ⟨g, h, hb⟩
  | cons q rest ih =>
    intro m d g b h hb
    obtain ⟨g', hg', hb'⟩ := assocAppend_keep h hb (key q) (val q)
    exact ih hg' hb'

lemma foldl_assocAppend_self {α β : Type} (key : β → String) (val : β → α) :
    ∀ (l : List β) (m : List (String × List α)) (p : β), p ∈ l →
      ∃ g, (key p, g) ∈ l.foldl (fun m p => assocAppend m (key p) (val p)) m ∧ val p ∈ g := by
  intro l
  induction l with
  | nil => intro m p hp; cases hp
  | cons q rest ih =>
    intro m p hp
    rcases List.mem_cons.mp hp with rfl | hp'
    · obtain ⟨g, hg, ha⟩ := assocAppend_self m (key p) (val p)
      exact foldl_assocAppend_keep key val rest hg ha
    · exact ih _ p hp'

lemma labelsPut_get (m : List (String × String)) (k v : String) :
    labelsGet (labelsPut m k v) k = some v := by
  induction m with
  | nil => simp [labelsPut, labelsGet]
  | cons p rest ih =>
    simp only [labelsPut]
    split
    · simp [labelsGet]
    · rename_i hk
      simp only [labelsGet]
      rw [if_neg hk]
      exact ih

lemma storeModify_getD {α : Type} (dflt : α) :
    ∀ (l : List α) (i : Nat) (f : α → α), i < l.length →
      (storeModify l i f).getD i dflt = f (l.getD i dflt) := by
  intro l
  induction l with
  | nil => intro i f h; cases h
  | cons x xs ih =>
    intro i f h
    cases i with
    | zero => rfl
    | succ n => exact ih n f (by simpa using h)

/-- C5 counterexample: grouping the concrete update pair stores the
UpdateOld endpoint's label-map reference (heap slot 0) into the grouped
new endpoint — not a copy into its own slot 1 — so writing the label
`shared` through that reference is visible through the old endpoint's
reference: the two endpoints share one underlying map instance. -/
theorem update_labels_shared_cex :
    coreGroupEndpoints coreCexChanges
      = [("a.example.com",
          [{ dnsName := "a.example.com", recordType := "A",
             targets := ["2.2.2.2"], labelsRef := 0 }])] ∧
    labelsGet (heapGet (storeModify coreCexHeap 0
        (fun m => labelsPut m "shared" "mutated")) 0) "shared" = some "mutated" := by
  constructor
  · decide
  · decide

/-- C5 amended: the CoreDNS grouping makes the new endpoint inherit the
old endpoint's Labels by reference assignment, not by copy: the grouped
endpoint for every update pair carries the old endpoint's label-map
reference, so a mutation through it is visible through the old
endpoint's labels as well. -/
theorem update_labels_shared_amended :
    ∀ (changes : CoreChanges) (p : EpRef × EpRef), p ∈ changes.update →
      (∃ d g, (d, g) ∈ coreGroupEndpoints changes ∧
        ({ p.2 with labelsRef := p.1.labelsRef } : EpRef) ∈ g) ∧
      (∀ (heap : List (List (String × String))) (k v : String),
        p.1.labelsRef < heap.length →
        labelsGet (heapGet (storeModify heap
          ({ p.2 with labelsRef := p.1.labelsRef } : EpRef).labelsRef
          (fun m => labelsPut m k v)) p.1.labelsRef) k = some v) := by
  intro changes p hp
  constructor
  · obtain ⟨g, hg, ha⟩ := foldl_assocAppend_self
      (fun q : EpRef × EpRef => q.2.dnsName)
      (fun q : EpRef × EpRef => { q.2 with labelsRef := q.1.labelsRef })
      changes.update _ p hp
    exact ⟨p.2.dnsName, g, hg, ha⟩
  · intro heap k v hlen
    simp only [heapGet]
    rw [storeModify_getD _ _ _ _ hlen]
    exact labelsPut_get _ k v

/-- Witness for C5 amended at the concrete update pair: the grouped
endpoint with the shared reference is present, and a write through it
is read back through the old endpoint's reference. -/
theorem update_labels_shared_amended_witness :
    (∃ d g, (d, g) ∈ coreGroupEndpoints coreCexChanges ∧
      ({ dnsName := "a.example.com", recordType := "A",
         targets := ["2.2.2.2"], labelsRef := 0 } : EpRef) ∈ g) ∧
    labelsGet (heapGet (storeModify coreCexHeap 0
        (fun m => labelsPut m "shared" "mutated")) 0) "shared" = some "mutated" := by
  have h := update_labels_shared_amended coreCexChanges
    ({ dnsName := "a.example.com", recordType := "A",
       targets := ["1.1.1.1"], labelsRef := 0 },
     { dnsName := "a.example.com", recordType := "A",
       targets := ["2.2.2.2"], labelsRef := 1 })
    (by decide)
  exact ⟨h.1, h.2 coreCexHeap "shared" "mutated" (by decide)⟩

/-! ### Claim C3: Records merging -/

/-- C3 counterexample: two host services under the same DNS name make
`Records` return the merged endpoint (targets unioned) but listed
twice — the same endpoint appears once per contributing service, so the
result does not contain at most one endpoint per
(DNSName, RecordType, SetIdentifier) key; and with a text-only service
preceding a host service of the same name, `findEp` (which matches by
DNS name only) absorbs the host into the TXT endpoint, so the non-TXT
service is not merged into an endpoint of its own record type and the
TXT endpoint's targets are not a union of hosts. -/
theorem core_records_duplicate_cex :
    ((coreRecords "/skydns/" (fun _ => true) (fun _ => true) coreCexSvcs).map
        (fun e => (e.dnsName, e.recordType, e.targets))
      = [("a.example.com", "A", ["1.1.1.1", "2.2.2.2"]),
         ("a.example.com", "A", ["1.1.1.1", "2.2.2.2"])]) ∧
    ((coreRecords "/skydns/" (fun _ => true) (fun _ => true) coreCexMixedSvcs).map
        (fun e => (e.dnsName, e.recordType, e.targets))
      = [("a.example.com", "TXT", ["t", "9.9.9.9"]),
         ("a.example.com", "TXT", ["t", "9.9.9.9"])]) := by
  constructor
  · decide
  · decide

lemma storeModify_length {α : Type} :
    ∀ (l : List α) (i : Nat) (f : α → α), (storeModify l i f).length = l.length := by
  intro l
  induction l with
  | nil => intro i f; rfl
  | cons x xs ih =>
    intro i f
    cases i with
    | zero => rfl
    | succ n => simpa [storeModify] using ih n f

lemma storeModify_get?_self {α : Type} :
    ∀ (l : List α) (i : Nat) (f : α → α),
      (storeModify l i f).get? i = (l.get? i).map f := by
  intro l
  induction l with
  | nil => intro i f; cases i <;> rfl
  | cons x xs ih =>
    intro i f
    cases i with
    | zero => rfl
    | succ n => simpa [storeModify] using ih n f

lemma storeModify_get?_other {α : Type} :
    ∀ (l : List α) (i j : Nat) (f : α → α), j ≠ i →
      (storeModify l i f).get? j = l.get? j := by
  intro l
  induction l with
  | nil => intro i j f h; cases i <;> rfl
  | cons x xs ih =>
    intro i j f h
    cases i with
    | zero =>
      cases j with
      | zero => exact absurd rfl h
      | succ m => rfl
    | succ n =>
      cases j with
      | zero => rfl
      | succ m => simpa [storeModify] using ih n m f (by omega)

lemma epAt_of_get? {store : List CoreEp} {i : Nat} {ep : CoreEp}
    (h : store.get? i = some ep) : epAt store i = ep := by
  rw [List.get?_eq_getElem?] at h
  simp [epAt, List.getD, h]

lemma get?_of_lt {α : Type} {l : List α} {i : Nat} (h : i < l.length) :
    ∃ x, l.get? i = some x := ⟨_, List.get?_eq_get h⟩

lemma findEpIdx_some {store : List CoreEp} {result : List Nat} {d : String} {i : Nat}
    (h : findEpIdx store result d = some i) :
    i ∈ result ∧ ∃ ep, store.get? i = some ep ∧ ep.dnsName = d := by
  induction result with
  | nil => cases h
  | cons j rest ih =>
    simp only [findEpIdx] at h
    split at h
    · rename_i ep hj
      split at h
      · rename_i hname
        cases h
        exact ⟨by simp, ep, hj, by simpa using hname⟩
      · obtain ⟨hmem, hrest⟩ := ih h
        exact ⟨by simp [hmem], hrest⟩
    · obtain ⟨hmem, hrest⟩ := ih h
      exact ⟨by simp [hmem], hrest⟩

lemma findEpIdx_none {store : List CoreEp} {result : List Nat} {d : String}
    (h : findEpIdx store result d = none) :
    ∀ i ∈ result, ∀ ep, store.get? i = some ep → ep.dnsName ≠ d := by
  induction result with
  | nil => simp
  | cons j rest ih =>
    simp only [findEpIdx] at h
    intro i hi ep hep
    split at h
    · rename_i ep0 hj
      split at h
      · cases h
      · rename_i hname
        rcases List.mem_cons.mp hi with rfl | hi'
        · rw [hj] at hep
          cases hep
          simpa using hname
        · exact ih h i hi' ep hep
    · rename_i hj
      rcases List.mem_cons.mp hi with rfl | hi'
      · rw [hj] at hep
        cases hep
      · exact ih h i hi' ep hep

lemma hostsForName_ne_nil {pfx : String} {dfM : String → Bool} {done : List CoreSvc}
    {d : String} (h : hostsForName pfx dfM done d ≠ []) :
    d ∈ (done.filter (keptSvc pfx dfM)).map (coreSvcDnsName pfx) := by
  simp only [hostsForName] at h
  have hfil : done.filter (fun s => keptSvc pfx dfM s && coreSvcDnsName pfx s == d) ≠ [] := by
    intro hc
    rw [hc] at h
    exact h rfl
  obtain ⟨s, hs⟩ := List.exists_mem_of_ne_nil _ hfil
  have hs' := List.mem_filter.mp hs
  have hcond := hs'.2
  simp only [Bool.and_eq_true, beq_iff_eq] at hcond
  exact List.mem_map.mpr ⟨s, List.mem_filter.mpr ⟨hs'.1, hcond.1⟩, hcond.2⟩

lemma filterMap_get?_eq_map {store : List CoreEp} :
    ∀ {result : List Nat}, (∀ i ∈ result, i < store.length) →
      result.filterMap (fun i => store.get? i) = result.map (epAt store) := by
  intro result
  induction result with
  | nil => intro _; rfl
  | cons i rest ih =>
    intro h
    obtain ⟨ep, hep⟩ := get?_of_lt (h i (by simp))
    simp only [List.filterMap_cons, List.map_cons, hep, epAt_of_get? hep]
    rw [ih (fun j hj => h j (by simp [hj]))]

lemma epAt_modify_dnsName {store : List CoreEp} {i : Nat} {f : CoreEp → CoreEp}
    (hf : ∀ ep, (f ep).dnsName = ep.dnsName) :
    ∀ j, (epAt (storeModify store i f) j).dnsName = (epAt store j).dnsName := by
  intro j
  by_cases hj : j = i
  · subst hj
    cases hget : store.get? j with
    | none =>
      have hmod : (storeModify store j f).get? j = none := by
        rw [storeModify_get?_self, hget]
        rfl
      rw [List.get?_eq_getElem?] at hget hmod
      simp [epAt, List.getD, hget, hmod]
    | some ep =>
      have hmod : (storeModify store j f).get? j = some (f ep) := by
        rw [storeModify_get?_self, hget]
        rfl
      rw [epAt_of_get? hmod, epAt_of_get? hget, hf]
  · have hmod := storeModify_get?_other store i j f hj
    cases hget : store.get? j with
    | none =>
      rw [hget] at hmod
      rw [List.get?_eq_getElem?] at hget hmod
      simp [epAt, List.getD, hget, hmod]
    | some ep =>
      rw [hget] at hmod
      rw [epAt_of_get? hmod, epAt_of_get? hget]

lemma epAt_append_lt {store : List CoreEp} {x : CoreEp} {j : Nat}
    (hj : j < store.length) : epAt (store ++ [x]) j = epAt store j := by
  obtain ⟨ep, hep⟩ := get?_of_lt hj
  have happ : (store ++ [x]).get? j = some ep := by
    rw [List.get?_append hj, hep]
  rw [epAt_of_get? happ, epAt_of_get? hep]

lemma epAt_append_self {store : List CoreEp} {x : CoreEp} :
    epAt (store ++ [x]) store.length = x := by
  have happ : (store ++ [x]).get? store.length = some x := by
    rw [List.get?_append_right (le_refl _)]
    simp
  exact epAt_of_get? happ

lemma filter_kept_ext_false {pfx : String} {dfM : String → Bool} {done : List CoreSvc}
    {svc : CoreSvc} (h : keptSvc pfx dfM svc = false) :
    (done ++ [svc]).filter (keptSvc pfx dfM) = done.filter (keptSvc pfx dfM) := by
  simp [List.filter_append, h]

lemma hosts_ext_false {pfx : String} {dfM : String → Bool} {done : List CoreSvc}
    {svc : CoreSvc} (h : keptSvc pfx dfM svc = false) (d : String) :
    hostsForName pfx dfM (done ++ [svc]) d = hostsForName pfx dfM done d := by
  simp [hostsForName, List.filter_append, h]

lemma filter_kept_ext_true {pfx : String} {dfM : String → Bool} {done : List CoreSvc}
    {svc : CoreSvc} (h : keptSvc pfx dfM svc = true) :
    (done ++ [svc]).filter (keptSvc pfx dfM) = done.filter (keptSvc pfx dfM) ++ [svc] := by
  simp [List.filter_append, h]

lemma hosts_ext_true_same {pfx : String} {dfM : String → Bool} {done : List CoreSvc}
    {svc : CoreSvc} (h : keptSvc pfx dfM svc = true) :
    hostsForName pfx dfM (done ++ [svc]) (coreSvcDnsName pfx svc)
      = hostsForName pfx dfM done (coreSvcDnsName pfx svc) ++ [svc.host] := by
  simp [hostsForName, List.filter_append, h]

lemma hosts_ext_true_other {pfx : String} {dfM : String → Bool} {done : List CoreSvc}
    {svc : CoreSvc} (h : keptSvc pfx dfM svc = true) {d : String}
    (hd : d ≠ coreSvcDnsName pfx svc) :
    hostsForName pfx dfM (done ++ [svc]) d = hostsForName pfx dfM done d := by
  have hbeq : (coreSvcDnsName pfx svc == d) = false :=
    beq_eq_false_iff_ne.mpr (Ne.symm hd)
  simp [hostsForName, List.filter_append, h, hbeq]

lemma epAt_modify_other {store : List CoreEp} {i j : Nat} {f : CoreEp → CoreEp}
    (hj : j ≠ i) : epAt (storeModify store i f) j = epAt store j := by
  have hmod := storeModify_get?_other store i j f hj
  cases hget : store.get? j with
  | none =>
    rw [hget] at hmod
    rw [List.get?_eq_getElem?] at hget hmod
    simp [epAt, List.getD, hget, hmod]
  | some ep =>
    rw [hget] at hmod
    rw [epAt_of_get? hmod, epAt_of_get? hget]

lemma coreRecInv_ext_unkept {pfx : String} {dfM : String → Bool} {done : List CoreSvc}
    {store : List CoreEp} {result : List Nat} {svc : CoreSvc}
    (h : keptSvc pfx dfM svc = false)
    (hinv : coreRecInv pfx dfM done store result) :
    coreRecInv pfx dfM (done ++ [svc]) store result := by
  obtain ⟨h1, h2, h3, h4⟩ := hinv
  refine ⟨h1, h2, ?_, ?_⟩
  · rw [filter_kept_ext_false h, h3]
  · intro i hi
    rw [hosts_ext_false h]
    exact h4 i hi

lemma coreRecordsStep_inv {pfx : String} {dfM isIP : String → Bool}
    {done : List CoreSvc} {store : List CoreEp} {result : List Nat} {svc : CoreSvc}
    (htext : svc.text = "")
    (hinv : coreRecInv pfx dfM done store result) :
    coreRecInv pfx dfM (done ++ [svc])
      (coreRecordsStep pfx dfM isIP (store, result) svc).1
      (coreRecordsStep pfx dfM isIP (store, result) svc).2 := by
  simp only [coreRecordsStep]
  by_cases hdf : dfM (coreSvcDnsName pfx svc) = true
  case neg =>
    have hdf' : dfM (coreSvcDnsName pfx svc) = false := by
      simpa using hdf
    rw [if_pos (by simp [hdf'])]
    exact coreRecInv_ext_unkept (by simp [keptSvc, hdf']) hinv
  case pos =>
    rw [if_neg (by simp [hdf])]
    rw [if_neg (by simp [htext])]
    by_cases hhost : svc.host = ""
    · rw [if_neg (by simp [hhost])]
      exact coreRecInv_ext_unkept (by simp [keptSvc, hhost]) hinv
    · rw [if_pos (by simp [hhost])]
      have hkept : keptSvc pfx dfM svc = true := by simp [keptSvc, hdf, hhost]
      obtain ⟨h1, h2, h3, h4⟩ := hinv
      cases hfind : findEpIdx store result (coreSvcDnsName pfx svc) with
      | some i =>
        simp only [hfind]
        obtain ⟨hiMem, ep0, hep0, hname0⟩ := findEpIdx_some hfind
        have hfdns : ∀ ep : CoreEp,
            (setHostLabels { ep with targets := ep.targets ++ [svc.host] }
              svc.text (coreSvcPfxPart pfx svc) svc.host).dnsName = ep.dnsName :=
          fun ep => rfl
        have hNm := @epAt_modify_dnsName store i _ hfdns
        have hmemR : ∀ j, j ∈ result ++ [i] → j ∈ result := by
          intro j hj
          rcases List.mem_append.mp hj with hj' | hj'
          · exact hj'
          · rw [List.mem_singleton.mp hj']
            exact hiMem
        refine ⟨?_, ?_, ?_, ?_⟩
        · intro j hj
          rw [storeModify_length]
          exact h1 j (hmemR j hj)
        · intro j1 hj1 j2 hj2 hnm
          rw [hNm j1, hNm j2] at hnm
          exact h2 j1 (hmemR j1 hj1) j2 (hmemR j2 hj2) hnm
        · simp only [List.map_append, hNm, List.map_cons, List.map_nil]
          rw [filter_kept_ext_true hkept, List.map_append, h3]
          rw [epAt_of_get? hep0, hname0]
          rfl
        · intro j hj
          by_cases hji : j = i
          · subst hji
            have hmod : (storeModify store j (fun ep =>
                setHostLabels { ep with targets := ep.targets ++ [svc.host] }
                  svc.text (coreSvcPfxPart pfx svc) svc.host)).get? j
                = some (setHostLabels { ep0 with targets := ep0.targets ++ [svc.host] }
                    svc.text (coreSvcPfxPart pfx svc) svc.host) := by
              rw [storeModify_get?_self, hep0]
              rfl
            rw [epAt_of_get? hmod]
            have htg : (setHostLabels { ep0 with targets := ep0.targets ++ [svc.host] }
                svc.text (coreSvcPfxPart pfx svc) svc.host).targets
              = ep0.targets ++ [svc.host] := rfl
            have hdn : (setHostLabels { ep0 with targets := ep0.targets ++ [svc.host] }
                svc.text (coreSvcPfxPart pfx svc) svc.host).dnsName = ep0.dnsName := rfl
            rw [htg, hdn, hname0, hosts_ext_true_same hkept]
            have h4i := h4 j hiMem
            rw [epAt_of_get? hep0, hname0] at h4i
            rw [h4i]
          · rw [epAt_modify_other hji]
            have hjmem : j ∈ result := hmemR j hj
            have hne : (epAt store j).dnsName ≠ coreSvcDnsName pfx svc := by
              intro hc
              apply hji
              refine h2 j hjmem i hiMem ?_
              rw [hc, epAt_of_get? hep0, hname0]
            rw [hosts_ext_true_other hkept hne]
            exact h4 j hjmem
      | none =>
        simp only [hfind]
        have hnone := findEpIdx_none hfind
        have hdiff : ∀ j ∈ result, (epAt store j).dnsName ≠ coreSvcDnsName pfx svc := by
          intro j hj
          obtain ⟨ep, hep⟩ := get?_of_lt (h1 j hj)
          rw [epAt_of_get? hep]
          exact hnone j hj ep hep
        have hEpLt : ∀ j ∈ result, epAt (store ++ [setHostLabels
            { dnsName := coreSvcDnsName pfx svc,
              recordType := guessRecordType isIP svc.host,
              targets := [svc.host], recordTTL := svc.ttl, labels := [] }
            svc.text (coreSvcPfxPart pfx svc) svc.host]) j = epAt store j :=
          fun j hj => epAt_append_lt (h1 j hj)
        refine ⟨?_, ?_, ?_, ?_⟩
        · intro j hj
          rw [List.length_append]
          rcases List.mem_append.mp hj with hj' | hj'
          · exact Nat.lt_succ_of_lt (h1 j hj')
          · rw [List.mem_singleton.mp hj']
            simp
        · intro j1 hj1 j2 hj2 hnm
          rcases List.mem_append.mp hj1 with hj1' | hj1' <;>
            rcases List.mem_append.mp hj2 with hj2' | hj2'
          · rw [hEpLt j1 hj1', hEpLt j2 hj2'] at hnm
            exact h2 j1 hj1' j2 hj2' hnm
          · rw [List.mem_singleton.mp hj2'] at hnm ⊢
            rw [hEpLt j1 hj1', epAt_append_self] at hnm
            exact absurd hnm (hdiff j1 hj1')
          · rw [List.mem_singleton.mp hj1'] at hnm ⊢
            rw [hEpLt j2 hj2', epAt_append_self] at hnm
            exact absurd hnm.symm (hdiff j2 hj2')
          · rw [List.mem_singleton.mp hj1', List.mem_singleton.mp hj2']
        · simp only [List.map_append, List.map_cons, List.map_nil]
          rw [List.map_congr_left (fun j hj => congrArg CoreEp.dnsName (hEpLt j hj))]
          rw [filter_kept_ext_true hkept, List.map_append, h3, epAt_append_self]
          rfl
        · intro j hj
          rcases List.mem_append.mp hj with hj' | hj'
          · rw [hEpLt j hj']
            rw [hosts_ext_true_other hkept (hdiff j hj')]
            exact h4 j hj'
          · rw [List.mem_singleton.mp hj']
            rw [epAt_append_self]
            have hdn : (setHostLabels
                { dnsName := coreSvcDnsName pfx svc,
                  recordType := guessRecordType isIP svc.host,
                  targets := [svc.host], recordTTL := svc.ttl, labels := [] }
                svc.text (coreSvcPfxPart pfx svc) svc.host).dnsName
              = coreSvcDnsName pfx svc := rfl
            rw [hdn, hosts_ext_true_same hkept]
            have hnil : hostsForName pfx dfM done (coreSvcDnsName pfx svc) = [] := by
              by_contra hne
              have hd := hostsForName_ne_nil hne
              rw [← h3] at hd
              obtain ⟨j0, hj0, hjd⟩ := List.mem_map.mp hd
              exact hdiff j0 hj0 hjd
            rw [hnil]
            rfl

lemma coreRecords_fold_inv {pfx : String} {dfM isIP : String → Bool} :
    ∀ (todo done : List CoreSvc) (store : List CoreEp) (result : List Nat),
      (∀ s ∈ todo, s.text = "") →
      coreRecInv pfx dfM done store result →
      coreRecInv pfx dfM (done ++ todo)
        (todo.foldl (coreRecordsStep pfx dfM isIP) (store, result)).1
        (todo.foldl (coreRecordsStep pfx dfM isIP) (store, result)).2 := by
  intro todo
  induction todo with
  | nil =>
    intro done store result _ hinv
    simpa using hinv
  | cons svc rest ih =>
    intro done store result htext hinv
    have hstep := @coreRecordsStep_inv pfx dfM isIP done store result svc
      (htext svc (by simp)) hinv
    have := ih (done ++ [svc])
      (coreRecordsStep pfx dfM isIP (store, result) svc).1
      (coreRecordsStep pfx dfM isIP (store, result) svc).2
      (fun s hs => htext s (by simp [hs])) hstep
    rw [List.append_assoc] at this
    exact this

/-- C3 amended: for a backend whose services all carry a host and no
text payload, the CoreDNS `Records` does merge all services sharing
one DNS name into a single endpoint whose targets are the union (in
backend order) of the services' hosts — all returned entries of one
DNS name are that one endpoint — but the endpoint appears in the
returned list once per contributing service (the loop re-appends the
found endpoint), not exactly once.  The restriction to text-free
backends is forced by the counterexample: with mixed text/host
services of one name the host is absorbed into the TXT endpoint. -/
theorem core_records_merges_amended :
    ∀ (pfx : String) (dfM isIP : String → Bool) (svcs : List CoreSvc),
      (∀ s ∈ svcs, s.text = "") →
      (∀ e1 ∈ coreRecords pfx dfM isIP svcs, ∀ e2 ∈ coreRecords pfx dfM isIP svcs,
         e1.dnsName = e2.dnsName → e1 = e2) ∧
      (coreRecords pfx dfM isIP svcs).map (fun e => e.dnsName)
        = (svcs.filter (keptSvc pfx dfM)).map (coreSvcDnsName pfx) ∧
      (∀ e ∈ coreRecords pfx dfM isIP svcs,
         e.targets = hostsForName pfx dfM svcs e.dnsName) := by
  intro pfx dfM isIP svcs htext
  have hinv0 : coreRecInv pfx dfM [] [] [] := by
    refine ⟨by simp, by simp, rfl, by simp⟩
  have hinv := @coreRecords_fold_inv pfx dfM isIP svcs [] [] [] htext hinv0
  simp only [List.nil_append] at hinv
  obtain ⟨h1, h2, h3, h4⟩ := hinv
  have hout : coreRecords pfx dfM isIP svcs
      = (svcs.foldl (coreRecordsStep pfx dfM isIP) ([], [])).2.map
          (epAt (svcs.foldl (coreRecordsStep pfx dfM isIP) ([], [])).1) := by
    simp only [coreRecords]
    exact filterMap_get?_eq_map h1
  refine ⟨?_, ?_, ?_⟩
  · intro e1 he1 e2 he2 hnm
    rw [hout] at he1 he2
    obtain ⟨j1, hj1, rfl⟩ := List.mem_map.mp he1
    obtain ⟨j2, hj2, rfl⟩ := List.mem_map.mp he2
    rw [h2 j1 hj1 j2 hj2 hnm]
  · rw [hout, List.map_map]
    exact h3
  · intro e he
    rw [hout] at he
    obtain ⟨j, hj, rfl⟩ := List.mem_map.mp he
    exact h4 j hj

/-- Witness for C3 amended at the concrete duplicate-producing backend:
both returned entries are the same merged endpoint with both hosts as
targets. -/
theorem core_records_merges_amended_witness :
    ((coreRecords "/skydns/" (fun _ => true) (fun _ => true) coreCexSvcs).map
        (fun e => e.dnsName)
      = ["a.example.com", "a.example.com"]) ∧
    (∀ e ∈ coreRecords "/skydns/" (fun _ => true) (fun _ => true) coreCexSvcs,
      e.targets = ["1.1.1.1", "2.2.2.2"]) := by
  have h := core_records_merges_amended "/skydns/" (fun _ => true) (fun _ => true)
    coreCexSvcs (by decide)
  have hnames : (coreRecords "/skydns/" (fun _ => true) (fun _ => true) coreCexSvcs).map
      (fun e => e.dnsName) = ["a.example.com", "a.example.com"] := by
    rw [h.2.1]
    decide
  refine ⟨hnames, ?_⟩
  intro e he
  rw [h.2.2 e he]
  have hname : e.dnsName = "a.example.com" := by
    have hmem : e.dnsName ∈ (coreRecords "/skydns/" (fun _ => true) (fun _ => true)
        coreCexSvcs).map (fun e => e.dnsName) := List.mem_map_of_mem _ he
    rw [hnames] at hmem
    simpa using hmem
  rw [hname]
  decide
